import Mathlib

/-!
Verification of the yoga configuration-resolution engine.

The development shallowly embeds the resolution logic of
`packages/yoga/src/yogaDefaults.ts` (the current module, whose
`DEFAULT_META_SCHEMA_PATH` export is imported by `config.ts`) together with
`findPrismaConfigFile` from `packages/yoga/src/config.ts`, and — inside the
`Legacy` namespace — the sibling historical variant of `yogaDefaults.ts`
(the one keyed by `prismaClientPath` / `nexusPrismaSchema` /
`contextClientName`).

External collaborators are modelled as parameters:
  * the path-existence oracle `fs : String → Bool` (what `existsSync`
    answers on the exact string it is given, with the process working
    directory passed explicitly where the source consults it);
  * the auxiliary-module loader `load : String → String → Nat`
    (file path, export name ↦ loaded value); descriptor and client values
    are opaque external data, modelled as natural numbers;
  * thrown `Error(message)` values (the spec's `ConfigValidationError`)
    are modelled with `Except String`.

Node's POSIX `path.join` is modelled by `joinPath` below: the segments are
joined with a separator and then normalized (`.` segments dropped, `..`
resolved, duplicate separators collapsed, a trailing separator preserved),
exactly as the documented join semantics require.
-/

deriving instance DecidableEq for Except

/-! ## Path model: node `path.join` for POSIX paths -/

/-- Split a character list on `'/'`; always returns a non-empty list of
slash-free pieces (empty pieces mark leading/duplicate/trailing slashes). -/
def splitSlash : List Char → List (List Char)
  | [] => [[]]
  | c :: rest =>
    let r := splitSlash rest
    if c = '/' then [] :: r
    else
      match r with
      | [] => [[c]]
      | h :: t => (c :: h) :: t

/-- The `".."` segment. -/
def dotdot : List Char := ['.', '.']

/-- One step of segment resolution: drop empty and `"."` segments, let
`".."` pop the previous real segment (or accumulate at the front of a
relative path, or vanish at the root of an absolute one). -/
def stepSeg (isAbs : Bool) (acc : List (List Char)) (seg : List Char) : List (List Char) :=
  if seg = [] ∨ seg = ['.'] then acc
  else if seg = dotdot then
    match acc.getLast? with
    | some l => if l = dotdot then acc ++ [dotdot] else acc.dropLast
    | none => if isAbs then [] else [dotdot]
  else acc ++ [seg]

/-- Resolve a list of raw segments. -/
def resolveSegs (isAbs : Bool) (l : List (List Char)) : List (List Char) :=
  l.foldl (stepSeg isAbs) []

/-- Rebuild a character list from segments, separating them with `'/'`. -/
def joinSegs : List (List Char) → List Char
  | [] => []
  | [s] => s
  | s :: rest => s ++ '/' :: joinSegs rest

/-- Rebuild a path string from its absoluteness flag, trailing-separator
flag and resolved segments. -/
def rebuild (isAbs hasTrail : Bool) (segs : List (List Char)) : String :=
  let body := joinSegs segs
  let absBody := if isAbs then '/' :: body else body
  let withTrail := if hasTrail ∧ segs ≠ [] then absBody ++ ['/'] else absBody
  if withTrail = [] then (if isAbs then "/" else ".") else String.mk withTrail

/-- Node's `path.normalize` for POSIX paths. -/
def normalizePath (s : String) : String :=
  let cs := s.data
  let isAbs : Bool := cs.head? = some '/'
  let hasTrail : Bool := cs.getLast? = some '/'
  rebuild isAbs hasTrail (resolveSegs isAbs (splitSlash cs))

/-- Interpose `"/"` between the parts. -/
def interposeSlash : List String → String
  | [] => ""
  | [s] => s
  | s :: rest => s ++ "/" ++ interposeSlash rest

/-- Node's variadic `path.join`: drop empty parts, join the rest with the
separator and normalize; all-empty input yields `"."`. -/
def joinList (parts : List String) : String :=
  match parts.filter (fun s => s ≠ "") with
  | [] => "."
  | ps => normalizePath (interposeSlash ps)

/-- `path.join(a, b)`. -/
def joinPath (a b : String) : String := joinList [a, b]

/-- `path.join(a, b, c)`. -/
def joinPath3 (a b c : String) : String := joinList [a, b, c]

/-- A path is absolute when it starts with the separator. -/
def isAbsPath (s : String) : Bool := s.data.head? = some '/'

/-- A segment that survives resolution in a place where `".."` cannot
remain: non-empty and neither `"."` nor `".."`. -/
def okSeg (s : List Char) : Bool :=
  if s = [] ∨ s = ['.'] ∨ s = dotdot then false else true

/-- Shape of a fully resolved segment list: a block of leading `".."`
segments (possible only for relative paths) followed by plain segments. -/
def ResolvedSegs (isAbs : Bool) (l : List (List Char)) : Prop :=
  ∃ ds rest, l = ds ++ rest ∧ (∀ s, s ∈ ds → s = dotdot) ∧
    (∀ s, s ∈ rest → okSeg s = true) ∧ (isAbs = true → ds = [])

/-- Match an expected leading run of characters, returning the remainder. -/
def dropLead : List Char → List Char → Option (List Char)
  | [], cs => some cs
  | _ :: _, [] => none
  | a :: as, c :: cs => if a = c then dropLead as cs else none

/-- Subtract the project root from a resolved path: the path must extend
`dir ++ "/"`, and the remainder must be usable as a raw value (non-empty). -/
def minusRoot (dir q : String) : Option String :=
  match dropLead (dir.data ++ ['/']) q.data with
  | none => none
  | some [] => none
  | some cs => some (String.mk cs)

/-! ## Embedding of `packages/yoga/src/yogaDefaults.ts` (current variant) -/

/-- Loaded client-binding object: opaque external data. -/
abbrev PrismaClientInput := Nat

/-- Loaded datamodel descriptor object: opaque external data. -/
abbrev DatamodelInfo := Nat

/-- `prisma` overrides object of `InputPrismaConfig`. -/
structure InputPrismaOverrides where
  datamodelInfoPath : Option String := none
  client : Option PrismaClientInput := none
  deriving DecidableEq

/-- `prisma?: true | { datamodelInfoPath?, client? }` as a tagged variant. -/
inductive InputPrismaConfig where
  | enable : InputPrismaConfig
  | overrides : InputPrismaOverrides → InputPrismaConfig
  deriving DecidableEq

/-- The reassignment `input = {}` performed by `prisma` once the subsystem
is known to be enabled: absent input and the literal `true` both become the
empty overrides object. -/
def inpOf : Option InputPrismaConfig → InputPrismaOverrides
  | none => {}
  | some InputPrismaConfig.enable => {}
  | some (InputPrismaConfig.overrides o) => o

/-- `output?: { typegenPath?, schemaPath?, buildPath? }`. -/
structure InputOutputFilesConfig where
  typegenPath : Option String := none
  schemaPath : Option String := none
  buildPath : Option String := none
  deriving DecidableEq

/-- The raw user configuration (`InputConfig`), every field optional. -/
structure InputConfig where
  contextPath : Option String := none
  resolversPath : Option String := none
  ejectFilePath : Option String := none
  output : Option InputOutputFilesConfig := none
  prisma : Option InputPrismaConfig := none
  deriving DecidableEq

/-- Resolved `output` record. -/
structure OutputConfig where
  typegenPath : String
  schemaPath : String
  buildPath : String
  deriving DecidableEq

/-- Resolved `prisma` record of the current variant. -/
structure PrismaConfigResolved where
  datamodelInfo : DatamodelInfo
  client : PrismaClientInput
  deriving DecidableEq

/-- The fully resolved configuration (`Config`). -/
structure Config where
  contextPath : Option String
  resolversPath : String
  ejectFilePath : Option String
  output : OutputConfig
  prisma : Option PrismaConfigResolved
  deriving DecidableEq

/-- The path fields of the `DEFAULTS` constant (the `prisma` field of the
source's `DEFAULTS` is an explicitly-documented unused placeholder). -/
structure ConfigDefaults where
  contextPath : String
  resolversPath : String
  ejectFilePath : String
  typegenPath : String
  schemaPath : String
  buildPath : String

/-- `DEFAULTS` from `yogaDefaults.ts`. -/
def DEFAULTS : ConfigDefaults where
  contextPath := "./src/context.ts"
  resolversPath := "./src/graphql/"
  ejectFilePath := "./src/index.ts"
  typegenPath := "./yoga/nexus.ts"
  schemaPath := "./src/schema.graphql"
  buildPath := "./dist"

/-- `DEFAULT_META_SCHEMA_PATH`. -/
def DEFAULT_META_SCHEMA_PATH : String := "./yoga/nexus-prisma/datamodel-info.ts"

/-- `DEFAULT_PRISMA_CLIENT_PATH`. -/
def DEFAULT_PRISMA_CLIENT_PATH : String := "./yoga/prisma-client/index.ts"

/-- JavaScript truthiness of a `string | undefined` value. -/
def strTruthy : Option String → Bool
  | none => false
  | some s => s ≠ ""

/-- `inputOrDefaultValue`: the input when truthy, else the default. -/
def inputOrDefaultValue (input : Option String) (defaultValue : String) : String :=
  if strTruthy input then input.getD defaultValue else defaultValue

/-- `inputOrDefaultPath`: default the value, then join it onto the project
directory. -/
def inputOrDefaultPath (projectDir : String) (input : Option String)
    (defaultValue : String) : String :=
  joinPath projectDir (inputOrDefaultValue input defaultValue)

/-- `optional`: if the path does not exist, fail when the input was truthy,
otherwise report the feature as absent; if it exists, return it.
(Named `optionalPath` here because the root name `optional` is taken by the
Lean standard library.) -/
def optionalPath (fs : String → Bool) (path : String) (input : Option String)
    (errorMessage : String) : Except String (Option String) :=
  if fs path then Except.ok (some path)
  else if strTruthy input then Except.error errorMessage
  else Except.ok none

/-- `requiredPath`: the path has to exist, whether it came from input or
from a default. -/
def requiredPath (fs : String → Bool) (path : String) (errorMessage : String) :
    Except String String :=
  if fs path then Except.ok path else Except.error errorMessage

/-- `findPrismaConfigFile` from `config.ts`: probe the project root, then
the working-directory-relative fallback. -/
def findPrismaConfigFile (fs : String → Bool) (cwd : String) (projectDir : String) :
    Option String :=
  let definitionPath := joinPath projectDir ("prisma.yml")
  if fs definitionPath then some definitionPath
  else
    let definitionPath := joinPath3 cwd ("prisma") ("prisma.yml")
    if fs definitionPath then some definitionPath
    else none

/-- `importDatamodelInfoAndClient`: collect the files to transpile (the
default client path under required policy when no inline client is given,
then the datamodel descriptor under required policy), load them in order,
and prepend any inline client. -/
def importDatamodelInfoAndClient (fs : String → Bool) (load : String → String → Nat)
    (projectDir : String) (outDir : String) (client : Option PrismaClientInput)
    (datamodelInfo : Option String) :
    Except String (PrismaClientInput × DatamodelInfo) := do
  let (filesToTranspile, outputVals) ←
    match client with
    | none => do
      let p ← requiredPath fs DEFAULT_PRISMA_CLIENT_PATH ("")
      Except.ok ([(p, ("prisma" : String))], ([] : List Nat))
    | some c => Except.ok ([], [c])
  let datamodelInfoPath := inputOrDefaultPath projectDir datamodelInfo DEFAULT_META_SCHEMA_PATH
  let dp ← requiredPath fs datamodelInfoPath
    ("Could not find a valid `prisma.datamodelInfo` at " ++ datamodelInfoPath)
  let files := filesToTranspile ++ [(dp, ("default" : String))]
  let importedFiles := files.map (fun f => load f.1 f.2)
  let allVals := outputVals ++ importedFiles
  Except.ok (allVals.getD 0 0, allVals.getD 1 0)

/-- `prisma` from the current `yogaDefaults.ts`: gate on explicit input or
the presence probe, then import the client binding and the datamodel. -/
def prisma (fs : String → Bool) (cwd : String) (load : String → String → Nat)
    (projectDir : String) (input : Option InputPrismaConfig) (outDir : String) :
    Except String (Option PrismaConfigResolved) :=
  let hasPrisma := (findPrismaConfigFile fs cwd projectDir).isSome
  match input, hasPrisma with
  | none, false => Except.ok none
  | input, _ =>
    let inp := inpOf input
    match importDatamodelInfoAndClient fs load projectDir outDir inp.client inp.datamodelInfoPath with
    | Except.error e => Except.error e
    | Except.ok (client, datamodelInfo) =>
      Except.ok (some { datamodelInfo := datamodelInfo, client := client })

/-- `contextPath` resolver. -/
def contextPath (fs : String → Bool) (projectDir : String) (input : Option String) :
    Except String (Option String) :=
  let path := inputOrDefaultPath projectDir input DEFAULTS.contextPath
  optionalPath fs path input ("Could not find a valid `contextPath` at " ++ path)

/-- `resolversPath` resolver. -/
def resolversPath (fs : String → Bool) (projectDir : String) (input : Option String) :
    Except String String :=
  let path := inputOrDefaultPath projectDir input DEFAULTS.resolversPath
  requiredPath fs path ("Could not find a valid `resolversPath` at " ++ path)

/-- `ejectFilePath` resolver. -/
def ejectFilePath (fs : String → Bool) (projectDir : String) (input : Option String) :
    Except String (Option String) :=
  let path := inputOrDefaultPath projectDir input DEFAULTS.ejectFilePath
  optionalPath fs path input ("Could not find a valid `ejectFilePath` at " ++ path)

/-- `output` resolver: note the external `outDir` override replaces the
project-root-joined default and the user's `buildPath` input is not read. -/
def output (projectDir : String) (input : Option InputOutputFilesConfig)
    (outDir : Option String) : OutputConfig :=
  let inp := match input with
    | none => ({} : InputOutputFilesConfig)
    | some i => i
  { typegenPath := inputOrDefaultPath projectDir inp.typegenPath DEFAULTS.typegenPath
    schemaPath := inputOrDefaultPath projectDir inp.schemaPath DEFAULTS.schemaPath
    buildPath := inputOrDefaultValue outDir (joinPath projectDir DEFAULTS.buildPath) }

/-! ## Embedding of the sibling historical variant of `yogaDefaults.ts`
(`src/packages/yoga/src/yogaDefaults.ts`, keyed by `prismaClientPath`,
`nexusPrismaSchema` and `contextClientName`). Only its `prisma` resolver
differs from the current variant; the defaulting and validation helpers are
character-for-character identical and are shared. -/

namespace Legacy

/-- Loaded nexus-prisma schema object: opaque external data. -/
abbrev NexusPrismaSchema := Nat

/-- `prisma` overrides object of the legacy `InputPrismaConfig`:
`nexusPrismaSchema` may be a path string or an inline schema object. -/
structure InputPrismaOverrides where
  prismaClientPath : Option String := none
  nexusPrismaSchema : Option (String ⊕ NexusPrismaSchema) := none
  contextClientName : Option String := none
  deriving DecidableEq

/-- Legacy `prisma?: true | overrides` as a tagged variant. -/
inductive InputPrismaConfig where
  | enable : InputPrismaConfig
  | overrides : InputPrismaOverrides → InputPrismaConfig
  deriving DecidableEq

/-- Resolved legacy `prisma` record. -/
structure PrismaResolved where
  prismaClientPath : String
  nexusPrismaSchema : NexusPrismaSchema
  contextClientName : String
  deriving DecidableEq

/-- The `prisma` part of the legacy `DEFAULTS` constant. -/
structure PrismaDefaults where
  prismaClientPath : String
  contextClientName : String

/-- `DEFAULTS.prisma` of the legacy variant. -/
def DEFAULTS : PrismaDefaults where
  prismaClientPath := "./yoga/prisma-client/index.ts"
  contextClientName := "prisma"

/-- `DEFAULT_NEXUS_PRISMA_SCHEMA_PATH` of the legacy variant. -/
def DEFAULT_NEXUS_PRISMA_SCHEMA_PATH : String := "./yoga/nexus-prisma/nexus-prisma.ts"

/-- JavaScript truthiness of the `string | NexusPrismaSchema | undefined`
input (empty path string falsy, any object truthy). -/
def nexusTruthy : Option (String ⊕ NexusPrismaSchema) → Bool
  | none => false
  | some (Sum.inl s) => s ≠ ""
  | some (Sum.inr _) => true

/-- Legacy `prisma` resolver: same gating as the current variant; the
client path is joined onto the project root and checked last (inside the
returned record literal), the schema input is used as-is when truthy, else
the constant default descriptor path is required (note: not joined with the
project root) and loaded via `transpileAndImportDefault`. -/
def prisma (fs : String → Bool) (cwd : String)
    (loadDefault : String → String → NexusPrismaSchema) (projectDir : String)
    (input : Option InputPrismaConfig) : Except String (Option PrismaResolved) :=
  let hasPrisma := (findPrismaConfigFile fs cwd projectDir).isSome
  match input, hasPrisma with
  | none, false => Except.ok none
  | input, _ =>
    let inp : InputPrismaOverrides :=
      match input with
      | none => {}
      | some InputPrismaConfig.enable => {}
      | some (InputPrismaConfig.overrides o) => o
    let prismaClientPath := inputOrDefaultPath projectDir inp.prismaClientPath DEFAULTS.prismaClientPath
    let schemaInput : Except String (String ⊕ NexusPrismaSchema) :=
      if nexusTruthy inp.nexusPrismaSchema then Except.ok (inp.nexusPrismaSchema.getD (Sum.inl ""))
      else (requiredPath fs DEFAULT_NEXUS_PRISMA_SCHEMA_PATH
        ("Could not find a valid `prisma.nexusPrismaSchema` at " ++ DEFAULT_NEXUS_PRISMA_SCHEMA_PATH)).map Sum.inl
    match schemaInput with
    | Except.error e => Except.error e
    | Except.ok nexusPrismaSchemaInput =>
      let nexusPrismaSchema := match nexusPrismaSchemaInput with
        | Sum.inl s => loadDefault projectDir s
        | Sum.inr v => v
      let contextClientName := inputOrDefaultValue inp.contextClientName DEFAULTS.contextClientName
      match requiredPath fs prismaClientPath
        ("Could not find a valid `prisma.prismaClientPath` at " ++ prismaClientPath) with
      | Except.error e => Except.error e
      | Except.ok pc =>
        Except.ok (some { prismaClientPath := pc
                          nexusPrismaSchema := nexusPrismaSchema
                          contextClientName := contextClientName })

end Legacy

/-- `normalizeConfig`: resolve every field, failing on the first validation
error in source evaluation order. -/
def normalizeConfig (fs : String → Bool) (cwd : String) (load : String → String → Nat)
    (config : InputConfig) (projectDir : String) (outDir : Option String) :
    Except String Config := do
  let outputProperty := output projectDir config.output outDir
  let ctx ← contextPath fs projectDir config.contextPath
  let res ← resolversPath fs projectDir config.resolversPath
  let ej ← ejectFilePath fs projectDir config.ejectFilePath
  let pr ← prisma fs cwd load projectDir config.prisma outputProperty.buildPath
  Except.ok
    { contextPath := ctx
      resolversPath := res
      ejectFilePath := ej
      output := outputProperty
      prisma := pr }

/-! ## Concrete filesystem snapshots and configurations used as witnesses -/

/-- Snapshot for C1: `prisma.yml` at the project root, the resolvers
directory, the relative default client path and the joined default
datamodel path all exist. -/
def fsC1 : String → Bool := fun s =>
  s = "/proj/prisma.yml" ∨ s = "/proj/src/graphql/" ∨
    s = "./yoga/prisma-client/index.ts" ∨ s = "/proj/yoga/nexus-prisma/datamodel-info.ts"

/-- The configuration `fsC1` resolves to for an empty raw config. -/
def cC1 : Config where
  contextPath := none
  resolversPath := "/proj/src/graphql/"
  ejectFilePath := none
  output := { typegenPath := "/proj/yoga/nexus.ts"
              schemaPath := "/proj/src/schema.graphql"
              buildPath := "/proj/dist" }
  prisma := some { datamodelInfo := 5, client := 5 }

/-- Snapshot for C2 against the current resolver: the client exists at the
project-root-joined path the claim names, and the joined default datamodel
path exists, but nothing exists at the cwd-relative literal
`./yoga/prisma-client/index.ts` the code actually checks. -/
def fsC2 : String → Bool := fun s =>
  s = "/proj/yoga/prisma-client/index.ts" ∨ s = "/proj/yoga/nexus-prisma/datamodel-info.ts"

/-- Snapshot for C2 against the legacy resolver: the relative default
descriptor path exists (so the schema step passes) while the joined client
path `/proj/yoga/prisma-client/index.ts` is missing. -/
def fsC2L : String → Bool := fun s => s = "./yoga/nexus-prisma/nexus-prisma.ts"

/-- The raw config the idempotence claim re-derives from a resolved config:
each resolved path minus the project root becomes the raw value; a present
`prisma` record re-enables the subsystem with its loaded client inline (the
resolved record retains no descriptor path that could be re-derived). -/
def deriveRaw (dir : String) (c : Config) : Option InputConfig :=
  match minusRoot dir c.resolversPath,
      (match c.contextPath with
        | none => some none
        | some p => (minusRoot dir p).map some),
      (match c.ejectFilePath with
        | none => some none
        | some p => (minusRoot dir p).map some),
      minusRoot dir c.output.typegenPath,
      minusRoot dir c.output.schemaPath with
  | some rres, some rctx, some rej, some rty, some rsc =>
    some { contextPath := rctx
           resolversPath := some rres
           ejectFilePath := rej
           output := some { typegenPath := some rty
                            schemaPath := some rsc
                            buildPath := minusRoot dir c.output.buildPath }
           prisma := match c.prisma with
             | none => none
             | some pr => some (InputPrismaConfig.overrides
                 { datamodelInfoPath := none, client := some pr.client }) }
  | _, _, _, _, _ => none

/-- The original raw config did not override the descriptor path. -/
def prismaNoCustomPath : Option InputPrismaConfig → Prop
  | some (InputPrismaConfig.overrides o) => o.datamodelInfoPath = none
  | _ => True

/-- Minimal snapshot: only the default resolvers directory exists. -/
def fsMin : String → Bool := fun s => s = "/proj/src/graphql/"

/-- The configuration `fsMin` resolves to for an empty raw config. -/
def cMin : Config where
  contextPath := none
  resolversPath := "/proj/src/graphql/"
  ejectFilePath := none
  output := { typegenPath := "/proj/yoga/nexus.ts"
              schemaPath := "/proj/src/schema.graphql"
              buildPath := "/proj/dist" }
  prisma := none

/-- Snapshot for C8: resolvers directory, a custom descriptor file and the
default descriptor file all exist. -/
def fs8 : String → Bool := fun s =>
  s = "/proj/src/graphql/" ∨ s = "/proj/custom.ts" ∨
    s = "/proj/yoga/nexus-prisma/datamodel-info.ts"

/-- Loader for C8: the custom descriptor and the default descriptor hold
different data. -/
def load8 : String → String → Nat := fun p _ => if p = "/proj/custom.ts" then 1 else 2

/-- Raw config for C8: subsystem enabled with an inline client and a custom
descriptor path. -/
def raw8 : InputConfig where
  prisma := some (InputPrismaConfig.overrides
    { datamodelInfoPath := some ("./custom.ts"), client := some 5 })

/-- What `raw8` resolves to under `fs8` and `load8`. -/
def c8a : Config where
  contextPath := none
  resolversPath := "/proj/src/graphql/"
  ejectFilePath := none
  output := { typegenPath := "/proj/yoga/nexus.ts"
              schemaPath := "/proj/src/schema.graphql"
              buildPath := "/proj/dist" }
  prisma := some { datamodelInfo := 1, client := 5 }

/-- The raw config re-derived from `c8a` (paths minus the root, client
inline, no descriptor path to re-derive). -/
def raw8b : InputConfig where
  contextPath := none
  resolversPath := some ("src/graphql/")
  ejectFilePath := none
  output := some { typegenPath := some ("yoga/nexus.ts")
                   schemaPath := some ("src/schema.graphql")
                   buildPath := some ("dist") }
  prisma := some (InputPrismaConfig.overrides
    { datamodelInfoPath := none, client := some 5 })

/-- What `raw8b` resolves to: the descriptor is reloaded from the default
location, so `datamodelInfo` flips from 1 to 2. -/
def c8b : Config where
  contextPath := none
  resolversPath := "/proj/src/graphql/"
  ejectFilePath := none
  output := { typegenPath := "/proj/yoga/nexus.ts"
              schemaPath := "/proj/src/schema.graphql"
              buildPath := "/proj/dist" }
  prisma := some { datamodelInfo := 2, client := 5 }

/-- The raw config re-derived from `cMin`. -/
def rawMinD : InputConfig where
  contextPath := none
  resolversPath := some ("src/graphql/")
  ejectFilePath := none
  output := some { typegenPath := some ("yoga/nexus.ts")
                   schemaPath := some ("src/schema.graphql")
                   buildPath := some ("dist") }
  prisma := none

/-! ## Theorems -/

/-- C9: the defaulting helper `inputOrDefaultValue` returns the user input
exactly when it is a non-empty string; an absent input and the empty string
both fall back to the default. -/
theorem c9_inputOrDefaultValue_spec (d : String) :
    inputOrDefaultValue none d = d ∧
    inputOrDefaultValue (some ("")) d = d ∧
    ∀ s : String, s ≠ "" → inputOrDefaultValue (some s) d = s := by
  refine ⟨rfl, by simp [inputOrDefaultValue, strTruthy], ?_⟩
  intro s hs
  simp [inputOrDefaultValue, strTruthy, hs]

/-- Witness for C9 at concrete inputs. -/
theorem c9_inputOrDefaultValue_spec_witness :
    inputOrDefaultValue (some ("x")) ("d") = "x" :=
  (c9_inputOrDefaultValue_spec ("d")).2.2 ("x") (by decide)

/-- C10: supplying the empty string for an optional field behaves exactly
as if the field were absent: the default path is used, and when the default
path does not exist the field is simply absent, with no error. -/
theorem c10_empty_string_is_absent (fs : String → Bool) (dir : String) :
    contextPath fs dir (some ("")) = contextPath fs dir none ∧
    ejectFilePath fs dir (some ("")) = ejectFilePath fs dir none ∧
    (fs (joinPath dir DEFAULTS.contextPath) = false →
      contextPath fs dir (some ("")) = Except.ok none) ∧
    (fs (joinPath dir DEFAULTS.ejectFilePath) = false →
      ejectFilePath fs dir (some ("")) = Except.ok none) := by
  refine ⟨rfl, rfl, ?_, ?_⟩ <;> intro h <;>
    simp [contextPath, ejectFilePath, optionalPath, inputOrDefaultPath,
      inputOrDefaultValue, strTruthy, h]

/-- Witness for C10: empty-string contextPath with a bare filesystem
resolves to an absent field. -/
theorem c10_empty_string_is_absent_witness :
    contextPath (fun _ => false) ("/proj") (some ("")) = Except.ok none :=
  (c10_empty_string_is_absent (fun _ => false) ("/proj")).2.2.1 (by decide)

/-- C3: optional-field policy for `contextPath` and `ejectFilePath`: an
existing resolved path is returned; a missing path with a user-supplied
(non-empty) value fails with the validation error; a missing path with no
user value resolves to an absent field without error. -/
theorem c3_optional_field_policy (fs : String → Bool) (dir : String) (input : Option String) :
    (fs (inputOrDefaultPath dir input DEFAULTS.contextPath) = true →
      contextPath fs dir input =
        Except.ok (some (inputOrDefaultPath dir input DEFAULTS.contextPath))) ∧
    (fs (inputOrDefaultPath dir input DEFAULTS.contextPath) = false →
      ∀ s, input = some s → s ≠ "" →
        contextPath fs dir input =
          Except.error ("Could not find a valid `contextPath` at " ++
            inputOrDefaultPath dir input DEFAULTS.contextPath)) ∧
    (fs (inputOrDefaultPath dir input DEFAULTS.contextPath) = false → input = none →
      contextPath fs dir input = Except.ok none) ∧
    (fs (inputOrDefaultPath dir input DEFAULTS.ejectFilePath) = true →
      ejectFilePath fs dir input =
        Except.ok (some (inputOrDefaultPath dir input DEFAULTS.ejectFilePath))) ∧
    (fs (inputOrDefaultPath dir input DEFAULTS.ejectFilePath) = false →
      ∀ s, input = some s → s ≠ "" →
        ejectFilePath fs dir input =
          Except.error ("Could not find a valid `ejectFilePath` at " ++
            inputOrDefaultPath dir input DEFAULTS.ejectFilePath)) ∧
    (fs (inputOrDefaultPath dir input DEFAULTS.ejectFilePath) = false → input = none →
      ejectFilePath fs dir input = Except.ok none) := by
  refine ⟨?_, ?_, ?_, ?_, ?_, ?_⟩
  · intro h
    simp [contextPath, optionalPath, h]
  · intro h s hsome hne
    subst hsome
    simp [contextPath, optionalPath, strTruthy, h, hne]
  · intro h hnone
    subst hnone
    simp [contextPath, optionalPath, strTruthy, h]
  · intro h
    simp [ejectFilePath, optionalPath, h]
  · intro h s hsome hne
    subst hsome
    simp [ejectFilePath, optionalPath, strTruthy, h, hne]
  · intro h hnone
    subst hnone
    simp [ejectFilePath, optionalPath, strTruthy, h]

/-- Witness for C3: the spec's scenario — explicit `contextPath: './nope.ts'`
on an empty filesystem fails naming the joined path. -/
theorem c3_optional_field_policy_witness :
    contextPath (fun _ => false) ("/proj") (some ("./nope.ts")) =
      Except.error ("Could not find a valid `contextPath` at /proj/nope.ts") := by
  have h := (c3_optional_field_policy (fun _ => false) ("/proj")
    (some ("./nope.ts"))).2.1 (by decide) ("./nope.ts") rfl (by decide)
  exact h.trans (by decide)

/-- C4: required-path policy: a missing resolved path always fails with the
given message, whether the value came from a default or explicit input; in
particular the empty raw config over project root `/proj` with no resolvers
directory fails mentioning `/proj/src/graphql/`. -/
theorem c4_required_policy (fs : String → Bool) :
    (∀ path msg, fs path = false → requiredPath fs path msg = Except.error msg) ∧
    (∀ dir input, fs (inputOrDefaultPath dir input DEFAULTS.resolversPath) = false →
      resolversPath fs dir input =
        Except.error ("Could not find a valid `resolversPath` at " ++
          inputOrDefaultPath dir input DEFAULTS.resolversPath)) ∧
    (∀ cwd load outDir, fs (joinPath ("/proj") DEFAULTS.resolversPath) = false →
      normalizeConfig fs cwd load {} ("/proj") outDir =
        Except.error ("Could not find a valid `resolversPath` at " ++
          joinPath ("/proj") DEFAULTS.resolversPath)) := by
  refine ⟨?_, ?_, ?_⟩
  · intro path msg h
    simp [requiredPath, h]
  · intro dir input h
    simp [resolversPath, requiredPath, h]
  · intro cwd load outDir h
    by_cases hc : fs (joinPath ("/proj") DEFAULTS.contextPath) <;>
      simp [normalizeConfig, contextPath, resolversPath, optionalPath, requiredPath,
        inputOrDefaultPath, inputOrDefaultValue, strTruthy, hc, h, Bind.bind, Except.bind]

/-- Witness for C4: the spec's scenario — empty raw config, empty
filesystem, project root `/proj`. -/
theorem c4_required_policy_witness :
    normalizeConfig (fun _ => false) ("/cwd") (fun _ _ => 0) {} ("/proj") none =
      Except.error ("Could not find a valid `resolversPath` at /proj/src/graphql/") := by
  have h := (c4_required_policy (fun _ => false)).2.2 ("/cwd") (fun _ _ => 0) none (by decide)
  exact h.trans (by decide)

/-- C6 counterexample: with no external override, a user-configured
`output.buildPath` of `"custom"` has no effect — the resolved build path is
the project-root default `/proj/dist`, not the join of the root with the
configured value. -/
theorem c6_counterexample :
    (output ("/proj") (some { buildPath := some ("custom") }) none).buildPath = "/proj/dist" ∧
    ("/proj/dist" : String) ≠ joinPath ("/proj") ("custom") := by decide

/-- C6 amended: the resolved build path equals the external override when
that override is supplied non-empty and otherwise equals the project root
joined with `./dist`; the user's configured `output.buildPath` is never
consulted. -/
theorem c6_amended (dir : String) (a b : Option InputOutputFilesConfig) (outDir : Option String) :
    (output dir a outDir).buildPath = (output dir b outDir).buildPath ∧
    (∀ o, outDir = some o → o ≠ "" → (output dir a outDir).buildPath = o) ∧
    (∀ o, outDir = some o → o = "" →
      (output dir a outDir).buildPath = joinPath dir ("./dist")) ∧
    (outDir = none → (output dir a outDir).buildPath = joinPath dir ("./dist")) := by
  refine ⟨rfl, ?_, ?_, ?_⟩
  · intro o ho hne
    subst ho
    simp [output, inputOrDefaultValue, strTruthy, hne]
  · intro o ho he
    subst ho
    subst he
    simp [output, inputOrDefaultValue, strTruthy, DEFAULTS]
  · intro ho
    subst ho
    simp [output, inputOrDefaultValue, strTruthy, DEFAULTS]

/-- Witness for C6 amended: the external override `/abs/out` wins over both
an absent and a configured user build path. -/
theorem c6_amended_witness :
    (output ("/proj") (some { buildPath := some ("custom") }) (some ("/abs/out"))).buildPath =
      "/abs/out" :=
  (c6_amended ("/proj") (some { buildPath := some ("custom") }) none
    (some ("/abs/out"))).2.1 ("/abs/out") rfl (by decide)

/-- Shared inversion: a successful `normalizeConfig` run determines every
field from the corresponding field resolver. -/
theorem normalizeConfig_ok_parts {fs : String → Bool} {cwd : String}
    {load : String → String → Nat} {raw : InputConfig} {dir : String}
    {outDir : Option String} {c : Config}
    (h : normalizeConfig fs cwd load raw dir outDir = Except.ok c) :
    contextPath fs dir raw.contextPath = Except.ok c.contextPath ∧
    resolversPath fs dir raw.resolversPath = Except.ok c.resolversPath ∧
    ejectFilePath fs dir raw.ejectFilePath = Except.ok c.ejectFilePath ∧
    output dir raw.output outDir = c.output ∧
    prisma fs cwd load dir raw.prisma (output dir raw.output outDir).buildPath =
      Except.ok c.prisma := by
  unfold normalizeConfig at h
  simp only [Bind.bind] at h
  cases h1 : contextPath fs dir raw.contextPath with
  | error e => rw [h1] at h; simp [Except.bind] at h
  | ok ctx =>
  rw [h1] at h
  cases h2 : resolversPath fs dir raw.resolversPath with
  | error e => rw [h2] at h; simp [Except.bind] at h
  | ok res =>
  rw [h2] at h
  cases h3 : ejectFilePath fs dir raw.ejectFilePath with
  | error e => rw [h3] at h; simp [Except.bind] at h
  | ok ej =>
  rw [h3] at h
  cases h4 : prisma fs cwd load dir raw.prisma (output dir raw.output outDir).buildPath with
  | error e => rw [h4] at h; simp [Except.bind] at h
  | ok pr =>
  rw [h4] at h
  simp only [Except.bind, Except.ok.injEq] at h
  subst h
  simp [h1, h2, h3, h4]

/-- Shared inversion: a successful `prisma` resolution is present exactly
when the input was present or the probe found a descriptor. -/
theorem prisma_ok_isSome {fs : String → Bool} {cwd : String}
    {load : String → String → Nat} {dir : String} {input : Option InputPrismaConfig}
    {od : String} {v : Option PrismaConfigResolved}
    (h : prisma fs cwd load dir input od = Except.ok v) :
    v.isSome = (input.isSome || (findPrismaConfigFile fs cwd dir).isSome) := by
  unfold prisma at h
  cases hp : (findPrismaConfigFile fs cwd dir).isSome <;> cases input <;>
      simp only [hp] at h
  · simp only [Except.ok.injEq] at h
    subst h
    simp [hp]
  · split at h
    · simp at h
    · simp only [Except.ok.injEq] at h
      subst h
      simp [hp]
  · split at h
    · simp at h
    · simp only [Except.ok.injEq] at h
      subst h
      simp [hp]
  · split at h
    · simp at h
    · simp only [Except.ok.injEq] at h
      subst h
      simp [hp]

/-- C1: the resolved `dbIntegration` (`prisma`) field is present iff the
user explicitly enabled it (literal `true` or an overrides object) or the
probe finds `prisma.yml` at the project root or at the cwd-relative
fallback `cwd/prisma/prisma.yml`; with absent input and a negative probe
the subsystem resolver short-circuits to `undefined` with no further
validation. -/
theorem c1_prisma_presence (fs : String → Bool) (cwd : String)
    (load : String → String → Nat) (dir : String) (outDir : Option String)
    (raw : InputConfig) (c : Config) :
    ((findPrismaConfigFile fs cwd dir).isSome =
      (fs (joinPath dir ("prisma.yml")) || fs (joinPath3 cwd ("prisma") ("prisma.yml")))) ∧
    (normalizeConfig fs cwd load raw dir outDir = Except.ok c →
      c.prisma.isSome = (raw.prisma.isSome || (findPrismaConfigFile fs cwd dir).isSome)) ∧
    (findPrismaConfigFile fs cwd dir = none →
      ∀ od, prisma fs cwd load dir none od = Except.ok none) := by
  refine ⟨?_, ?_, ?_⟩
  · unfold findPrismaConfigFile
    by_cases h1 : fs (joinPath dir ("prisma.yml")) <;>
      by_cases h2 : fs (joinPath3 cwd ("prisma") ("prisma.yml")) <;>
      simp [h1, h2]
  · intro h
    exact prisma_ok_isSome (normalizeConfig_ok_parts h).2.2.2.2
  · intro h od
    unfold prisma
    simp [h]

/-- Witness for C1: with `prisma.yml` on disk and no user input, the
resolved config carries a present `prisma` record. -/
theorem c1_prisma_presence_witness : cC1.prisma.isSome = true := by
  have h := (c1_prisma_presence fsC1 ("/cwd") (fun _ _ => 5) ("/proj") none {} cC1).2.1
    (by decide)
  exact h.trans (by decide)

/-- C2: evaluating the current resolver at the claim's scenario. The user
enables the subsystem, `/proj/yoga/prisma-client/index.ts` (the path the
claim names) exists, yet resolution fails — and with an empty error
message — because the code checks the unjoined constant
`./yoga/prisma-client/index.ts` and passes `''` as the message. The second
conjunct shows the sibling legacy resolver performing exactly the check the
claim (and spec scenario) describe: it joins the root and names the path in
the error. -/
theorem c2_client_required_bug :
    prisma fsC2 ("/cwd") (fun _ _ => 0) ("/proj") (some InputPrismaConfig.enable)
        ("/proj/dist") = Except.error ("") ∧
    Legacy.prisma fsC2L ("/cwd") (fun _ _ => 0) ("/proj")
        (some Legacy.InputPrismaConfig.enable) =
      Except.error
        ("Could not find a valid `prisma.prismaClientPath` at /proj/yoga/prisma-client/index.ts") := by
  decide

/-- C7: descriptor resolution when the subsystem is enabled. In the
current resolver (client supplied inline, so the client step is not
involved): with no user descriptor path the default descriptor path is
joined onto the project root; if it is missing, resolution fails naming it;
if present, its `default` export is loaded through the auxiliary loader.
In the legacy resolver an inline descriptor object is used as-is, with no
filesystem check on any descriptor path. -/
theorem c7_descriptor_resolution (fs : String → Bool) (load : String → String → Nat)
    (dir outDirS : String) (cl : PrismaClientInput) :
    (fs (joinPath dir DEFAULT_META_SCHEMA_PATH) = false →
      importDatamodelInfoAndClient fs load dir outDirS (some cl) none =
        Except.error ("Could not find a valid `prisma.datamodelInfo` at " ++
          joinPath dir DEFAULT_META_SCHEMA_PATH)) ∧
    (fs (joinPath dir DEFAULT_META_SCHEMA_PATH) = true →
      importDatamodelInfoAndClient fs load dir outDirS (some cl) none =
        Except.ok (cl, load (joinPath dir DEFAULT_META_SCHEMA_PATH) ("default"))) ∧
    (∀ (cwd : String) (loadDefault : String → String → Nat) (v : Legacy.NexusPrismaSchema),
      fs (joinPath dir Legacy.DEFAULTS.prismaClientPath) = true →
      Legacy.prisma fs cwd loadDefault dir
          (some (Legacy.InputPrismaConfig.overrides { nexusPrismaSchema := some (Sum.inr v) })) =
        Except.ok (some { prismaClientPath := joinPath dir Legacy.DEFAULTS.prismaClientPath
                          nexusPrismaSchema := v
                          contextClientName := "prisma" })) := by
  refine ⟨?_, ?_, ?_⟩
  · intro h
    simp [importDatamodelInfoAndClient, requiredPath, inputOrDefaultPath,
      inputOrDefaultValue, strTruthy, h, Bind.bind, Except.bind]
  · intro h
    simp [importDatamodelInfoAndClient, requiredPath, inputOrDefaultPath,
      inputOrDefaultValue, strTruthy, h, Bind.bind, Except.bind]
  · intro cwd loadDefault v h
    unfold Legacy.prisma
    simp only [Legacy.DEFAULTS] at h
    cases hp : (findPrismaConfigFile fs cwd dir).isSome <;>
      simp [hp, Legacy.nexusTruthy, Legacy.DEFAULTS, requiredPath, inputOrDefaultPath,
        inputOrDefaultValue, strTruthy, h]

/-- Witness for C7: a missing joined default descriptor path fails naming
it; a present one loads the `default` export; the legacy resolver accepts
an inline descriptor on a filesystem containing only the client path. -/
theorem c7_descriptor_resolution_witness :
    importDatamodelInfoAndClient (fun _ => false) (fun _ _ => 9) ("/proj") ("/proj/dist")
        (some 4) none =
      Except.error
        ("Could not find a valid `prisma.datamodelInfo` at /proj/yoga/nexus-prisma/datamodel-info.ts") := by
  have h := (c7_descriptor_resolution (fun _ => false) (fun _ _ => 9) ("/proj")
    ("/proj/dist") 4).1 (by decide)
  exact h.trans (by decide)

/-- Normalizing a string that starts with the separator yields an absolute
path. -/
theorem normalizePath_isAbs (s : String) (h : s.data.head? = some '/') :
    isAbsPath (normalizePath s) = true := by
  unfold normalizePath isAbsPath rebuild
  simp only [h, decide_True, if_true]
  split <;> simp_all

/-- `isAbsPath` in propositional form. -/
theorem isAbsPath_head {s : String} (h : isAbsPath s = true) : s.data.head? = some '/' := by
  simpa [isAbsPath] using h

/-- `joinPath` on two non-empty parts is normalization of the separated
concatenation. -/
theorem joinPath_eq_of_ne (a b : String) (ha : a ≠ "") (hb : b ≠ "") :
    joinPath a b = normalizePath (a ++ "/" ++ b) := by
  unfold joinPath joinList
  simp [List.filter_cons, interposeSlash, ha, hb]

/-- `joinPath` with an empty second part normalizes the first. -/
theorem joinPath_empty_right (a : String) (ha : a ≠ "") :
    joinPath a "" = normalizePath a := by
  unfold joinPath joinList
  simp [List.filter_cons, interposeSlash, ha]

/-- Joining anything onto an absolute directory yields an absolute path. -/
theorem joinPath_isAbs {a : String} (b : String) (h : isAbsPath a = true) :
    isAbsPath (joinPath a b) = true := by
  have ha : a ≠ "" := by
    intro e
    subst e
    simp [isAbsPath] at h
  have hh := isAbsPath_head h
  by_cases hb : b = ""
  · subst hb
    rw [joinPath_empty_right a ha]
    exact normalizePath_isAbs a hh
  · rw [joinPath_eq_of_ne a b ha hb]
    apply normalizePath_isAbs
    have hdata : (a ++ "/" ++ b).data = a.data ++ ("/" ++ b).data := by
      simp [String.data_append, List.append_assoc]
    rw [hdata]
    cases hd : a.data with
    | nil => simp [hd] at hh
    | cons x xs => simpa [hd] using hh

/-- Shared inversion: a successful `optionalPath` is absent or returns the
given path. -/
theorem optionalPath_ok {fs : String → Bool} {path : String} {input : Option String}
    {msg : String} {v : Option String}
    (h : optionalPath fs path input msg = Except.ok v) :
    v = none ∨ v = some path := by
  unfold optionalPath at h
  split at h
  · simp only [Except.ok.injEq] at h
    right
    exact h.symm
  · split at h
    · simp at h
    · simp only [Except.ok.injEq] at h
      left
      exact h.symm

/-- Shared inversion: a successful `requiredPath` returns the given path. -/
theorem requiredPath_ok {fs : String → Bool} {path msg v : String}
    (h : requiredPath fs path msg = Except.ok v) : v = path := by
  unfold requiredPath at h
  split at h
  · simp only [Except.ok.injEq] at h
    exact h.symm
  · simp at h

/-- C5: in a successful resolution every path field equals the join of the
project root with the user value or the documented default and is absolute;
`buildPath` equals the external override verbatim when that is supplied
(non-empty), else the project-root-joined default, and is absolute either
way. -/
theorem c5_resolved_paths_absolute (fs : String → Bool) (cwd : String)
    (load : String → String → Nat) (raw : InputConfig) (dir : String)
    (outDir : Option String) (c : Config)
    (hdir : isAbsPath dir = true)
    (hout : ∀ o, outDir = some o → isAbsPath o = true)
    (h : normalizeConfig fs cwd load raw dir outDir = Except.ok c) :
    (c.resolversPath = inputOrDefaultPath dir raw.resolversPath DEFAULTS.resolversPath ∧
      isAbsPath c.resolversPath = true) ∧
    (∀ p, c.contextPath = some p →
      p = inputOrDefaultPath dir raw.contextPath DEFAULTS.contextPath ∧
        isAbsPath p = true) ∧
    (∀ p, c.ejectFilePath = some p →
      p = inputOrDefaultPath dir raw.ejectFilePath DEFAULTS.ejectFilePath ∧
        isAbsPath p = true) ∧
    (c.output.typegenPath =
        inputOrDefaultPath dir
          (match raw.output with
            | none => none
            | some i => i.typegenPath) DEFAULTS.typegenPath ∧
      isAbsPath c.output.typegenPath = true) ∧
    (c.output.schemaPath =
        inputOrDefaultPath dir
          (match raw.output with
            | none => none
            | some i => i.schemaPath) DEFAULTS.schemaPath ∧
      isAbsPath c.output.schemaPath = true) ∧
    (c.output.buildPath = inputOrDefaultValue outDir (joinPath dir DEFAULTS.buildPath) ∧
      isAbsPath c.output.buildPath = true) := by
  obtain ⟨h1, h2, h3, h4, _⟩ := normalizeConfig_ok_parts h
  refine ⟨?_, ?_, ?_, ?_, ?_, ?_⟩
  · have := requiredPath_ok h2
    exact ⟨this, this ▸ joinPath_isAbs _ hdir⟩
  · intro p hp
    rcases optionalPath_ok (hp ▸ h1) with he | he
    · simp at he
    · simp only [Option.some.injEq] at he
      subst he
      exact ⟨rfl, joinPath_isAbs _ hdir⟩
  · intro p hp
    rcases optionalPath_ok (hp ▸ h3) with he | he
    · simp at he
    · simp only [Option.some.injEq] at he
      subst he
      exact ⟨rfl, joinPath_isAbs _ hdir⟩
  · rw [← h4]
    cases raw.output <;>
      exact ⟨rfl, joinPath_isAbs _ hdir⟩
  · rw [← h4]
    cases raw.output <;>
      exact ⟨rfl, joinPath_isAbs _ hdir⟩
  · rw [← h4]
    refine ⟨?_, ?_⟩
    · cases raw.output <;> rfl
    · have hbuild : (output dir raw.output outDir).buildPath =
          inputOrDefaultValue outDir (joinPath dir DEFAULTS.buildPath) := by
        cases raw.output <;> rfl
      rw [hbuild]
      cases outDir with
      | none => exact joinPath_isAbs _ hdir
      | some o =>
        by_cases ho : o = ""
        · subst ho
          simpa [inputOrDefaultValue, strTruthy] using joinPath_isAbs DEFAULTS.buildPath hdir
        · simpa [inputOrDefaultValue, strTruthy, ho] using hout o rfl

/-- Witness for C5 at the minimal snapshot. -/
theorem c5_resolved_paths_absolute_witness :
    cMin.resolversPath = "/proj/src/graphql/" ∧ isAbsPath cMin.resolversPath = true := by
  have h := (c5_resolved_paths_absolute fsMin ("/cwd") (fun _ _ => 0) {} ("/proj") none cMin
    (by decide) (fun o ho => nomatch ho) (by decide)).1
  exact ⟨h.1.trans (by decide), h.2⟩

/-- Empty segments are skipped by segment resolution. -/
theorem stepSeg_nil (isAbs : Bool) (acc : List (List Char)) :
    stepSeg isAbs acc [] = acc := by
  simp [stepSeg]

/-- A leading empty segment is skipped. -/
theorem resolveSegs_nil_cons (isAbs : Bool) (l : List (List Char)) :
    resolveSegs isAbs ([] :: l) = resolveSegs isAbs l := by
  unfold resolveSegs
  rw [List.foldl_cons, stepSeg_nil]

/-- A trailing empty segment is skipped. -/
theorem resolveSegs_append_nil (isAbs : Bool) (l : List (List Char)) :
    resolveSegs isAbs (l ++ [[]]) = resolveSegs isAbs l := by
  unfold resolveSegs
  rw [List.foldl_append]
  simp [stepSeg_nil]

/-- `splitSlash` never produces the empty list. -/
theorem splitSlash_ne_nil (cs : List Char) : splitSlash cs ≠ [] := by
  induction cs with
  | nil => simp [splitSlash]
  | cons c rest ih =>
    unfold splitSlash
    cases hr : splitSlash rest with
    | nil => exact absurd hr ih
    | cons h t =>
      by_cases hc : c = '/' <;> simp [hc]

/-- Pieces produced by `splitSlash` contain no separator. -/
theorem splitSlash_no_slash (cs : List Char) :
    ∀ p, p ∈ splitSlash cs → '/' ∉ p := by
  induction cs with
  | nil =>
    intro p hp
    simp [splitSlash] at hp
    simp [hp]
  | cons c rest ih =>
    intro p hp
    unfold splitSlash at hp
    cases hr : splitSlash rest with
    | nil => exact absurd hr (splitSlash_ne_nil rest)
    | cons h t =>
      rw [hr] at hp
      have ihh : '/' ∉ h := ih h (by rw [hr]; exact List.mem_cons_self h t)
      have iht : ∀ q, q ∈ t → '/' ∉ q := fun q hq =>
        ih q (by rw [hr]; exact List.mem_cons_of_mem h hq)
      by_cases hc : c = '/'
      · simp [hc] at hp
        rcases hp with hp | hp | hp
        · simp [hp]
        · exact hp ▸ ihh
        · exact iht p hp
      · simp [hc] at hp
        rcases hp with hp | hp
        · subst hp
          intro hmem
          rcases List.mem_cons.mp hmem with he | he
          · exact hc he.symm
          · exact ihh he
        · exact iht p hp

/-- Splitting a slash-free piece returns it alone. -/
theorem splitSlash_of_no_slash (s : List Char) (h : '/' ∉ s) : splitSlash s = [s] := by
  induction s with
  | nil => rfl
  | cons c cs ih =>
    have hc : ¬(c = '/') := fun he => h (he ▸ List.mem_cons_self c cs)
    have hcs : '/' ∉ cs := fun hm => h (List.mem_cons_of_mem c hm)
    simp [splitSlash, ih hcs, hc]

/-- Splitting a slash-free piece followed by a separator and a remainder. -/
theorem splitSlash_append_cons (s rest : List Char) (h : '/' ∉ s) :
    splitSlash (s ++ '/' :: rest) = s :: splitSlash rest := by
  induction s with
  | nil => simp [splitSlash]
  | cons c cs ih =>
    have hc : ¬(c = '/') := fun he => h (he ▸ List.mem_cons_self c cs)
    have hcs : '/' ∉ cs := fun hm => h (List.mem_cons_of_mem c hm)
    have hr := ih hcs
    simp only [List.cons_append]
    simp [splitSlash, hr, hc]

/-- Splitting undoes joining for slash-free pieces. -/
theorem splitSlash_joinSegs : ∀ l : List (List Char), l ≠ [] →
    (∀ p, p ∈ l → '/' ∉ p) → splitSlash (joinSegs l) = l := by
  intro l
  induction l with
  | nil => intro h _; exact absurd rfl h
  | cons s t ih =>
    intro _ hsl
    cases t with
    | nil => exact splitSlash_of_no_slash s (hsl s (by simp))
    | cons b t' =>
      have hj : joinSegs (s :: b :: t') = s ++ '/' :: joinSegs (b :: t') := rfl
      rw [hj, splitSlash_append_cons s _ (hsl s (by simp)),
        ih (by simp) (fun p hp => hsl p (List.mem_cons_of_mem s hp))]

/-- Appending an empty segment appends a separator. -/
theorem joinSegs_append_nil : ∀ l : List (List Char), l ≠ [] →
    joinSegs (l ++ [[]]) = joinSegs l ++ ['/'] := by
  intro l
  induction l with
  | nil => intro h; exact absurd rfl h
  | cons s t ih =>
    intro _
    cases t with
    | nil => rfl
    | cons b t' =>
      have h1 : joinSegs ((s :: b :: t') ++ [[]]) = s ++ '/' :: joinSegs ((b :: t') ++ [[]]) := rfl
      have h2 : joinSegs (s :: b :: t') = s ++ '/' :: joinSegs (b :: t') := rfl
      rw [h1, ih (by simp), h2]
      simp

/-- Joined segments are non-empty when the pieces are. -/
theorem joinSegs_ne_nil : ∀ l : List (List Char), l ≠ [] → (∀ p, p ∈ l → p ≠ []) →
    joinSegs l ≠ [] := by
  intro l
  cases l with
  | nil => intro h _; exact absurd rfl h
  | cons s t =>
    intro _ hne
    cases t with
    | nil => exact hne s (by simp)
    | cons b t' =>
      have hj : joinSegs (s :: b :: t') = s ++ '/' :: joinSegs (b :: t') := rfl
      rw [hj]
      simp

/-- The head of joined segments is the head of the first piece. -/
theorem joinSegs_head (s : List Char) (t : List (List Char)) (hs : s ≠ []) :
    (joinSegs (s :: t)).head? = s.head? := by
  cases t with
  | nil => rfl
  | cons b t' =>
    have hj : joinSegs (s :: b :: t') = s ++ '/' :: joinSegs (b :: t') := rfl
    rw [hj, List.head?_append]
    cases s with
    | nil => exact absurd rfl hs
    | cons c cs => rfl

/-- Dropping the head does not change the last element of a list with at
least two elements. -/
theorem getLast?_cons_of_ne_nil {a : Char} {x : List Char} (hx : x ≠ []) :
    (a :: x).getLast? = x.getLast? := by
  rcases List.eq_nil_or_concat x with h | ⟨L, b, rfl⟩
  · exact absurd h hx
  · rw [List.concat_eq_append, ← List.cons_append, List.getLast?_concat, List.getLast?_concat]

/-- The last character of joined slash-free non-empty segments is not the
separator. -/
theorem joinSegs_getLast : ∀ l : List (List Char), l ≠ [] →
    (∀ p, p ∈ l → p ≠ []) → (∀ p, p ∈ l → '/' ∉ p) →
    ∃ c, (joinSegs l).getLast? = some c ∧ c ≠ '/' := by
  intro l
  induction l with
  | nil => intro h _ _; exact absurd rfl h
  | cons s t ih =>
    intro _ hne hsl
    cases t with
    | nil =>
      have hs : s ≠ [] := hne s (by simp)
      rcases List.eq_nil_or_concat s with h | ⟨L, a, rfl⟩
      · exact absurd h hs
      · refine ⟨a, ?_, ?_⟩
        · simp [joinSegs, List.getLast?_concat]
        · intro he
          subst he
          exact hsl (L.concat '/') (by simp) (by simp)
    | cons b t' =>
      obtain ⟨c, hc, hc'⟩ := ih (by simp)
        (fun p hp => hne p (List.mem_cons_of_mem s hp))
        (fun p hp => hsl p (List.mem_cons_of_mem s hp))
      have hx : joinSegs (b :: t') ≠ [] := joinSegs_ne_nil _ (by simp)
        (fun p hp => hne p (List.mem_cons_of_mem s hp))
      have hj : joinSegs (s :: b :: t') = s ++ '/' :: joinSegs (b :: t') := rfl
      refine ⟨c, ?_, hc'⟩
      rw [hj, List.getLast?_append, getLast?_cons_of_ne_nil hx, hc]
      rfl

/-- One resolution step preserves the resolved shape. -/
theorem stepSeg_resolved {isAbs : Bool} {acc : List (List Char)} (seg : List Char)
    (h : ResolvedSegs isAbs acc) : ResolvedSegs isAbs (stepSeg isAbs acc seg) := by
  obtain ⟨ds, rest, rfl, hds, hrest, habs⟩ := h
  unfold stepSeg
  split
  · exact ⟨ds, rest, rfl, hds, hrest, habs⟩
  · split
    · rcases List.eq_nil_or_concat rest with hr | ⟨r', a, hr⟩
      · subst hr
        rcases List.eq_nil_or_concat ds with hd | ⟨d', b, hd⟩
        · subst hd
          simp only [List.append_nil, List.getLast?_nil]
          split
          · exact ⟨[], [], rfl, by simp, by simp, fun _ => rfl⟩
          · rename_i habs'
            refine ⟨[dotdot], [], rfl, by simp, by simp, fun he => absurd he ?_⟩
            simpa using habs'
        · subst hd
          have hb : b = dotdot := hds b (by simp)
          subst hb
          simp only [List.append_nil, List.concat_eq_append, List.getLast?_concat]
          rw [if_pos trivial]
          refine ⟨(d' ++ [dotdot]) ++ [dotdot], [], by simp, ?_, by simp, ?_⟩
          · intro s hs
            rcases List.mem_append.mp hs with hs | hs
            · exact hds s (by simpa using hs)
            · simpa using hs
          · intro he
            have := habs he
            simp at this
      · subst hr
        have ha : okSeg a = true := hrest a (by simp)
        have ha' : ¬(a = dotdot) := by
          intro he
          subst he
          simp [okSeg] at ha
        rw [List.concat_eq_append, ← List.append_assoc, List.getLast?_concat]
        simp only [if_neg ha', List.dropLast_concat]
        exact ⟨ds, r', rfl, hds,
          fun s hs => hrest s (by rw [List.concat_eq_append]; exact List.mem_append_left _ hs),
          habs⟩
    · rename_i h1 h2
      refine ⟨ds, rest ++ [seg], by simp, hds, ?_, habs⟩
      intro s hs
      rcases List.mem_append.mp hs with hs | hs
      · exact hrest s hs
      · have he : s = seg := by simpa using hs
        subst he
        simp [okSeg]
        push_neg at h1
        exact ⟨h1.1, h1.2, h2⟩

/-- Full resolution produces the resolved shape. -/
theorem resolveSegs_resolved (isAbs : Bool) (l : List (List Char)) :
    ResolvedSegs isAbs (resolveSegs isAbs l) := by
  suffices haux : ∀ (l acc : List (List Char)), ResolvedSegs isAbs acc →
      ResolvedSegs isAbs (List.foldl (stepSeg isAbs) acc l) by
    exact haux l [] ⟨[], [], rfl, by simp, by simp, fun _ => rfl⟩
  intro l
  induction l with
  | nil => intro acc h; exact h
  | cons s t ih =>
    intro acc h
    rw [List.foldl_cons]
    exact ih _ (stepSeg_resolved s h)

/-- Every resolved segment is `".."` or one of the input segments. -/
theorem resolveSegs_mem {isAbs : Bool} {l : List (List Char)} :
    ∀ p, p ∈ resolveSegs isAbs l → p = dotdot ∨ p ∈ l := by
  suffices haux : ∀ (l acc : List (List Char)) (p : List Char),
      p ∈ List.foldl (stepSeg isAbs) acc l → p = dotdot ∨ p ∈ acc ∨ p ∈ l by
    intro p hp
    rcases haux l [] p hp with h | h | h
    · exact Or.inl h
    · simp at h
    · exact Or.inr h
  intro l
  induction l with
  | nil =>
    intro acc p hp
    simp only [List.foldl_nil] at hp
    exact Or.inr (Or.inl hp)
  | cons s t ih =>
    intro acc p hp
    rw [List.foldl_cons] at hp
    rcases ih _ p hp with h | h | h
    · exact Or.inl h
    · unfold stepSeg at h
      split at h
      · exact Or.inr (Or.inl h)
      · split at h
        · split at h
          · rename_i heq
            split at h
            · rcases List.mem_append.mp h with h | h
              · exact Or.inr (Or.inl h)
              · exact Or.inl (by simpa using h)
            · exact Or.inr (Or.inl (List.dropLast_subset _ h))
          · split at h
            · simp at h
            · left
              simpa using h
        · rcases List.mem_append.mp h with h | h
          · exact Or.inr (Or.inl h)
          · right; right
            simp only [List.mem_singleton] at h
            exact h ▸ List.mem_cons_self s t
    · exact Or.inr (Or.inr (List.mem_cons_of_mem s h))

/-- A plain segment is appended by the resolution step. -/
theorem stepSeg_ok {isAbs : Bool} {acc : List (List Char)} {s : List Char}
    (hs : okSeg s = true) : stepSeg isAbs acc s = acc ++ [s] := by
  unfold okSeg at hs
  split at hs
  · simp at hs
  · rename_i hcond
    push_neg at hcond
    unfold stepSeg
    rw [if_neg (by tauto), if_neg hcond.2.2]

/-- `".."` appended to a pure `".."` block (relative path) accumulates. -/
theorem stepSeg_dotdot_dots {isAbs : Bool} {acc : List (List Char)}
    (hacc : ∀ x, x ∈ acc → x = dotdot) (habs : isAbs = false) :
    stepSeg isAbs acc dotdot = acc ++ [dotdot] := by
  unfold stepSeg
  rw [if_neg (by decide), if_pos rfl]
  rcases List.eq_nil_or_concat acc with h | ⟨L, b, h⟩
  · subst h
    simp [habs]
  · subst h
    have hb : b = dotdot := hacc b (by simp)
    subst hb
    simp [List.concat_eq_append, List.getLast?_concat]

/-- Resolution leaves an already-resolved suffix unchanged. -/
theorem foldl_stepSeg_fixed {isAbs : Bool} :
    ∀ (l acc : List (List Char)), ResolvedSegs isAbs (acc ++ l) →
      List.foldl (stepSeg isAbs) acc l = acc ++ l := by
  intro l
  induction l with
  | nil => intro acc _; simp
  | cons s t ih =>
    intro acc h
    have hstep : stepSeg isAbs acc s = acc ++ [s] := by
      obtain ⟨ds, rest, hdec, hds, hrest, habs⟩ := h
      rcases List.append_eq_append_iff.mp hdec with ⟨a', ha1, ha2⟩ | ⟨c', hc1, hc2⟩
      · cases a' with
        | nil =>
          exact stepSeg_ok (hrest s (by simp only [List.nil_append] at ha2; rw [← ha2]; simp))
        | cons a0 a'' =>
          have hs : s = dotdot := by
            have : a0 = dotdot := hds a0 (by rw [ha1]; simp)
            have hsa : s = a0 := by
              have := ha2
              simp only [List.cons_append] at this
              exact (List.cons.injEq _ _ _ _ ▸ this).1
            rw [hsa, this]
          have habs' : isAbs = false := by
            cases isAbs with
            | false => rfl
            | true =>
              have := habs rfl
              rw [ha1] at this
              simp at this
          subst hs
          exact stepSeg_dotdot_dots
            (fun x hx => hds x (by rw [ha1]; exact List.mem_append_left _ hx)) habs'
      · exact stepSeg_ok (hrest s (by rw [hc2]; exact List.mem_append_right _ (by simp)))
    rw [List.foldl_cons, hstep, ih (acc ++ [s]) (by simpa [List.append_assoc] using h)]
    simp

/-- Resolution is the identity on resolved segment lists. -/
theorem resolveSegs_fixed {isAbs : Bool} {l : List (List Char)}
    (h : ResolvedSegs isAbs l) : resolveSegs isAbs l = l := by
  have := foldl_stepSeg_fixed l [] (by simpa using h)
  simpa [resolveSegs] using this

/-- Resolved segments are non-empty. -/
theorem ResolvedSegs_ne_nil {isAbs : Bool} {l : List (List Char)}
    (h : ResolvedSegs isAbs l) : ∀ p, p ∈ l → p ≠ [] := by
  obtain ⟨ds, rest, rfl, hds, hrest, _⟩ := h
  intro p hp
  rcases List.mem_append.mp hp with hp | hp
  · rw [hds p hp]
    decide
  · have hok := hrest p hp
    intro he
    subst he
    simp [okSeg] at hok

/-- Splitting after a leading separator. -/
theorem splitSlash_cons_slash (cs : List Char) :
    splitSlash ('/' :: cs) = [] :: splitSlash cs := by
  simp [splitSlash]

/-- The character data of a rebuilt non-empty segment list. -/
theorem rebuild_data (isAbs hasTrail : Bool) (l : List (List Char)) (hl : l ≠ [])
    (hnn : ∀ p, p ∈ l → p ≠ []) :
    (rebuild isAbs hasTrail l).data =
      (if isAbs then ['/'] else []) ++ joinSegs l ++ (if hasTrail then ['/'] else []) := by
  unfold rebuild
  have hb : joinSegs l ≠ [] := joinSegs_ne_nil l hl hnn
  cases isAbs <;> cases hasTrail <;> simp [hl, hb]

/-- The head of a rebuilt path detects exactly the absoluteness flag. -/
theorem rebuild_head (isAbs hasTrail : Bool) (l : List (List Char)) (hl : l ≠ [])
    (hnn : ∀ p, p ∈ l → p ≠ []) (hsl : ∀ p, p ∈ l → '/' ∉ p) :
    decide ((rebuild isAbs hasTrail l).data.head? = some '/') = isAbs := by
  rw [rebuild_data isAbs hasTrail l hl hnn]
  cases isAbs
  · simp only [Bool.false_eq_true, if_false, List.nil_append]
    cases l with
    | nil => exact absurd rfl hl
    | cons s t =>
      have hs : s ≠ [] := hnn s (by simp)
      rw [List.head?_append, joinSegs_head s t hs]
      cases s with
      | nil => exact absurd rfl hs
      | cons c cs =>
        have hc : ¬(c = '/') := fun he =>
          hsl (c :: cs) (by simp) (he ▸ List.mem_cons_self c cs)
        simp [Option.or, hc]
  · simp

/-- The last character of a rebuilt path detects exactly the trailing
separator flag. -/
theorem rebuild_last (isAbs hasTrail : Bool) (l : List (List Char)) (hl : l ≠ [])
    (hnn : ∀ p, p ∈ l → p ≠ []) (hsl : ∀ p, p ∈ l → '/' ∉ p) :
    decide ((rebuild isAbs hasTrail l).data.getLast? = some '/') = hasTrail := by
  rw [rebuild_data isAbs hasTrail l hl hnn]
  cases hasTrail
  · simp only [Bool.false_eq_true, if_false, List.append_nil]
    obtain ⟨c, hc, hc'⟩ := joinSegs_getLast l hl hnn hsl
    rw [List.getLast?_append, hc]
    simp [Option.or, hc']
  · simp only [if_true, List.getLast?_concat]
    simp

/-- Splitting and resolving a rebuilt path recovers the segments. -/
theorem rebuild_resolve (isAbs hasTrail : Bool) (l : List (List Char))
    (hres : ResolvedSegs isAbs l) (hl : l ≠ []) (hsl : ∀ p, p ∈ l → '/' ∉ p) :
    resolveSegs isAbs (splitSlash (rebuild isAbs hasTrail l).data) = l := by
  have hnn := ResolvedSegs_ne_nil hres
  rw [rebuild_data isAbs hasTrail l hl hnn]
  cases hasTrail
  · simp only [Bool.false_eq_true, if_false, List.append_nil]
    cases isAbs
    · simp only [Bool.false_eq_true, if_false, List.nil_append]
      rw [splitSlash_joinSegs l hl hsl]
      exact resolveSegs_fixed hres
    · simp only [if_true]
      have hpre : ['/'] ++ joinSegs l = '/' :: joinSegs l := rfl
      rw [hpre, splitSlash_cons_slash, splitSlash_joinSegs l hl hsl, resolveSegs_nil_cons]
      exact resolveSegs_fixed hres
  · have hj : joinSegs l ++ ['/'] = joinSegs (l ++ [[]]) := (joinSegs_append_nil l hl).symm
    have hsplit : splitSlash (joinSegs (l ++ [[]])) = l ++ [[]] := by
      refine splitSlash_joinSegs (l ++ [[]]) (by simp) ?_
      intro p hp
      rcases List.mem_append.mp hp with h | h
      · exact hsl p h
      · simp at h
        simp [h]
    cases isAbs
    · simp only [Bool.false_eq_true, if_false, if_true, List.nil_append]
      rw [hj, hsplit, resolveSegs_append_nil]
      exact resolveSegs_fixed hres
    · simp only [if_true]
      have hpre : ['/'] ++ joinSegs l ++ ['/'] = '/' :: (joinSegs l ++ ['/']) := by simp
      rw [hpre, hj, splitSlash_cons_slash, hsplit, resolveSegs_nil_cons,
        resolveSegs_append_nil]
      exact resolveSegs_fixed hres

/-- Normalization is the identity on rebuilt resolved paths. -/
theorem normalizePath_rebuild (isAbs hasTrail : Bool) (l : List (List Char))
    (hres : ResolvedSegs isAbs l) (hsl : ∀ p, p ∈ l → '/' ∉ p) :
    normalizePath (rebuild isAbs hasTrail l) = rebuild isAbs hasTrail l := by
  rcases eq_or_ne l [] with rfl | hl
  · cases isAbs <;> cases hasTrail <;> decide
  · have hnn := ResolvedSegs_ne_nil hres
    have hh := rebuild_head isAbs hasTrail l hl hnn hsl
    have hlast := rebuild_last isAbs hasTrail l hl hnn hsl
    have hr := rebuild_resolve isAbs hasTrail l hres hl hsl
    show rebuild (decide ((rebuild isAbs hasTrail l).data.head? = some '/'))
        (decide ((rebuild isAbs hasTrail l).data.getLast? = some '/'))
        (resolveSegs (decide ((rebuild isAbs hasTrail l).data.head? = some '/'))
          (splitSlash (rebuild isAbs hasTrail l).data)) = rebuild isAbs hasTrail l
    rw [hh, hlast, hr]

/-- Normalization is idempotent. -/
theorem normalizePath_idem (s : String) :
    normalizePath (normalizePath s) = normalizePath s := by
  have h1 : normalizePath s = rebuild (decide (s.data.head? = some '/'))
      (decide (s.data.getLast? = some '/'))
      (resolveSegs (decide (s.data.head? = some '/')) (splitSlash s.data)) := rfl
  rw [h1]
  apply normalizePath_rebuild
  · exact resolveSegs_resolved _ _
  · intro p hp
    rcases resolveSegs_mem p hp with h | h
    · subst h
      decide
    · exact splitSlash_no_slash s.data p h

/-- A successful `dropLead` certifies the decomposition. -/
theorem dropLead_some : ∀ {pre cs rest : List Char}, dropLead pre cs = some rest →
    cs = pre ++ rest := by
  intro pre
  induction pre with
  | nil =>
    intro cs rest h
    simp [dropLead] at h
    simp [h]
  | cons a as ih =>
    intro cs rest h
    cases cs with
    | nil => simp [dropLead] at h
    | cons c cs' =>
      unfold dropLead at h
      split at h
      · rename_i he
        subst he
        have hrec := ih h
        simp [hrec]
      · simp at h

/-- Any `joinPath` onto a non-empty root is in the image of
normalization. -/
theorem joinPath_normalize (dir v : String) (hdir : dir ≠ "") :
    ∃ x, joinPath dir v = normalizePath x := by
  by_cases hv : v = ""
  · subst hv
    exact ⟨dir, joinPath_empty_right dir hdir⟩
  · exact ⟨dir ++ "/" ++ v, joinPath_eq_of_ne dir v hdir hv⟩

/-- A successful root subtraction certifies the decomposition and a
non-empty remainder. -/
theorem minusRoot_some {dir q r : String} (h : minusRoot dir q = some r) :
    q = dir ++ "/" ++ r ∧ r ≠ "" := by
  unfold minusRoot at h
  cases hdl : dropLead (dir.data ++ ['/']) q.data with
  | none => rw [hdl] at h; simp at h
  | some cs =>
    rw [hdl] at h
    cases cs with
    | nil => simp at h
    | cons c cs' =>
      simp only [Option.some.injEq] at h
      subst h
      have hq : q.data = (dir.data ++ ['/']) ++ (c :: cs') := dropLead_some hdl
      constructor
      · apply String.ext
        rw [hq]
        simp [String.data_append]
      · intro he
        have hd : (String.mk (c :: cs')).data = String.data ("") := congrArg String.data he
        simp at hd

/-- Re-joining the subtracted remainder restores the resolved path. -/
theorem joinPath_minusRoot {dir q r v : String} (hdir : isAbsPath dir = true)
    (hq : q = joinPath dir v) (hm : minusRoot dir q = some r) :
    joinPath dir r = q := by
  have hdir' : dir ≠ "" := by
    intro e
    subst e
    simp [isAbsPath] at hdir
  obtain ⟨heq, hr⟩ := minusRoot_some hm
  obtain ⟨x, hx⟩ := joinPath_normalize dir v hdir'
  rw [joinPath_eq_of_ne dir r hdir' hr, ← heq, hq, hx, normalizePath_idem]

/-- An absent optional field means the path was missing and the input not
truthy. -/
theorem optionalPath_ok_none {fs : String → Bool} {path : String}
    {input : Option String} {msg : String}
    (h : optionalPath fs path input msg = Except.ok none) :
    fs path = false ∧ strTruthy input = false := by
  unfold optionalPath at h
  split at h
  · simp at h
  · rename_i hfs
    split at h
    · simp at h
    · rename_i ht
      exact ⟨Bool.eq_false_iff.mpr hfs, Bool.eq_false_iff.mpr ht⟩

/-- A present optional field is the given path and it exists. -/
theorem optionalPath_ok_some {fs : String → Bool} {path : String}
    {input : Option String} {msg p : String}
    (h : optionalPath fs path input msg = Except.ok (some p)) :
    p = path ∧ fs path = true := by
  unfold optionalPath at h
  split at h
  · rename_i hfs
    simp only [Except.ok.injEq, Option.some.injEq] at h
    exact ⟨h.symm, hfs⟩
  · split at h <;> simp at h

/-- A successful required path is the given path and it exists. -/
theorem requiredPath_ok_fs {fs : String → Bool} {path msg v : String}
    (h : requiredPath fs path msg = Except.ok v) : v = path ∧ fs path = true := by
  unfold requiredPath at h
  split at h
  · rename_i hfs
    simp only [Except.ok.injEq] at h
    exact ⟨h.symm, hfs⟩
  · simp at h

/-- Forward: an existing optional path resolves to itself. -/
theorem optionalPath_exists {fs : String → Bool} {path : String}
    (input : Option String) (msg : String) (h : fs path = true) :
    optionalPath fs path input msg = Except.ok (some path) := by
  simp [optionalPath, h]

/-- Forward: a missing optional path with non-truthy input is absent. -/
theorem optionalPath_absent {fs : String → Bool} {path : String}
    {input : Option String} (msg : String) (h : fs path = false)
    (ht : strTruthy input = false) :
    optionalPath fs path input msg = Except.ok none := by
  simp [optionalPath, h, ht]

/-- Forward: an existing required path resolves to itself. -/
theorem requiredPath_exists {fs : String → Bool} {path : String} (msg : String)
    (h : fs path = true) : requiredPath fs path msg = Except.ok path := by
  simp [requiredPath, h]

/-- A truthy input wins over the default. -/
theorem inputOrDefaultValue_some_ne {s : String} (d : String) (hs : s ≠ "") :
    inputOrDefaultValue (some s) d = s := by
  simp [inputOrDefaultValue, strTruthy, hs]

/-- A non-truthy input falls back to the default. -/
theorem inputOrDefaultValue_not_truthy {input : Option String} (d : String)
    (h : strTruthy input = false) : inputOrDefaultValue input d = d := by
  simp [inputOrDefaultValue, h]

/-- Forward: enabled subsystem with inline client and existing descriptor
path. -/
theorem importDMIC_inline {fs : String → Bool} {load : String → String → Nat}
    {dir od : String} (c0 : PrismaClientInput) (dmi : Option String)
    (hfs : fs (joinPath dir (inputOrDefaultValue dmi DEFAULT_META_SCHEMA_PATH)) = true) :
    importDatamodelInfoAndClient fs load dir od (some c0) dmi =
      Except.ok (c0,
        load (joinPath dir (inputOrDefaultValue dmi DEFAULT_META_SCHEMA_PATH)) ("default")) := by
  unfold importDatamodelInfoAndClient
  simp [inputOrDefaultPath, requiredPath, hfs, Bind.bind, Except.bind]

/-- Forward: enabled subsystem with inline client and missing descriptor
path. -/
theorem importDMIC_inline_err {fs : String → Bool} {load : String → String → Nat}
    {dir od : String} (c0 : PrismaClientInput) (dmi : Option String)
    (hfs : fs (joinPath dir (inputOrDefaultValue dmi DEFAULT_META_SCHEMA_PATH)) = false) :
    importDatamodelInfoAndClient fs load dir od (some c0) dmi =
      Except.error ("Could not find a valid `prisma.datamodelInfo` at " ++
        joinPath dir (inputOrDefaultValue dmi DEFAULT_META_SCHEMA_PATH)) := by
  unfold importDatamodelInfoAndClient
  simp [inputOrDefaultPath, requiredPath, hfs, Bind.bind, Except.bind]

/-- Forward: enabled subsystem loading both files. -/
theorem importDMIC_load {fs : String → Bool} {load : String → String → Nat}
    {dir od : String} (dmi : Option String)
    (hrel : fs DEFAULT_PRISMA_CLIENT_PATH = true)
    (hfs : fs (joinPath dir (inputOrDefaultValue dmi DEFAULT_META_SCHEMA_PATH)) = true) :
    importDatamodelInfoAndClient fs load dir od none dmi =
      Except.ok (load DEFAULT_PRISMA_CLIENT_PATH ("prisma"),
        load (joinPath dir (inputOrDefaultValue dmi DEFAULT_META_SCHEMA_PATH)) ("default")) := by
  unfold importDatamodelInfoAndClient
  simp [inputOrDefaultPath, requiredPath, hrel, hfs, Bind.bind, Except.bind]

/-- Forward: enabled subsystem with no inline client and a missing
cwd-relative client constant fails with the empty message. -/
theorem importDMIC_noclient_err {fs : String → Bool} {load : String → String → Nat}
    {dir od : String} (dmi : Option String)
    (hrel : fs DEFAULT_PRISMA_CLIENT_PATH = false) :
    importDatamodelInfoAndClient fs load dir od none dmi = Except.error ("") := by
  unfold importDatamodelInfoAndClient
  simp [requiredPath, hrel, Bind.bind, Except.bind]

/-- Forward: client file found but descriptor missing. -/
theorem importDMIC_load_err {fs : String → Bool} {load : String → String → Nat}
    {dir od : String} (dmi : Option String)
    (hrel : fs DEFAULT_PRISMA_CLIENT_PATH = true)
    (hfs : fs (joinPath dir (inputOrDefaultValue dmi DEFAULT_META_SCHEMA_PATH)) = false) :
    importDatamodelInfoAndClient fs load dir od none dmi =
      Except.error ("Could not find a valid `prisma.datamodelInfo` at " ++
        joinPath dir (inputOrDefaultValue dmi DEFAULT_META_SCHEMA_PATH)) := by
  unfold importDatamodelInfoAndClient
  simp [inputOrDefaultPath, requiredPath, hrel, hfs, Bind.bind, Except.bind]

/-- Inversion: any successful import certifies the descriptor path and the
loaded descriptor value. -/
theorem importDMIC_ok {fs : String → Bool} {load : String → String → Nat}
    {dir od : String} {cl : Option PrismaClientInput} {a b : Nat}
    (h : importDatamodelInfoAndClient fs load dir od cl none = Except.ok (a, b)) :
    fs (joinPath dir DEFAULT_META_SCHEMA_PATH) = true ∧
      b = load (joinPath dir DEFAULT_META_SCHEMA_PATH) ("default") := by
  have hdm : inputOrDefaultValue (none : Option String) DEFAULT_META_SCHEMA_PATH =
      DEFAULT_META_SCHEMA_PATH := rfl
  by_cases hfs : fs (joinPath dir DEFAULT_META_SCHEMA_PATH) = true
  · refine ⟨hfs, ?_⟩
    cases cl with
    | some c0 =>
      rw [importDMIC_inline c0 none (by rw [hdm]; exact hfs)] at h
      rw [hdm] at h
      simp only [Except.ok.injEq, Prod.mk.injEq] at h
      exact h.2.symm
    | none =>
      by_cases hrel : fs DEFAULT_PRISMA_CLIENT_PATH = true
      · rw [importDMIC_load none hrel (by rw [hdm]; exact hfs)] at h
        rw [hdm] at h
        simp only [Except.ok.injEq, Prod.mk.injEq] at h
        exact h.2.symm
      · rw [importDMIC_noclient_err none (Bool.eq_false_iff.mpr hrel)] at h
        simp at h
  · exfalso
    have hfsf : fs (joinPath dir (inputOrDefaultValue none DEFAULT_META_SCHEMA_PATH)) = false := by
      rw [hdm]
      exact Bool.eq_false_iff.mpr hfs
    cases cl with
    | some c0 =>
      rw [importDMIC_inline_err c0 none hfsf] at h
      simp at h
    | none =>
      by_cases hrel : fs DEFAULT_PRISMA_CLIENT_PATH = true
      · rw [importDMIC_load_err none hrel hfsf] at h
        simp at h
      · rw [importDMIC_noclient_err none (Bool.eq_false_iff.mpr hrel)] at h
        simp at h

/-- Forward: absent input with a negative probe short-circuits. -/
theorem prisma_disabled {fs : String → Bool} {cwd : String}
    {load : String → String → Nat} {dir od : String}
    (h : (findPrismaConfigFile fs cwd dir).isSome = false) :
    prisma fs cwd load dir none od = Except.ok none := by
  unfold prisma
  simp [h]

/-- Inversion: an absent resolved subsystem means absent input and a
negative probe. -/
theorem prisma_ok_none {fs : String → Bool} {cwd : String}
    {load : String → String → Nat} {dir : String} {input : Option InputPrismaConfig}
    {od : String} (h : prisma fs cwd load dir input od = Except.ok none) :
    input = none ∧ (findPrismaConfigFile fs cwd dir).isSome = false := by
  have hi := prisma_ok_isSome h
  cases input with
  | some _ => simp at hi
  | none =>
    refine ⟨rfl, ?_⟩
    simpa using hi.symm

/-- Once enabled, the subsystem resolver is the import step. -/
theorem prisma_enabled {fs : String → Bool} {cwd : String}
    {load : String → String → Nat} {dir : String} {input : Option InputPrismaConfig}
    {od : String}
    (hin : input.isSome = true ∨ (findPrismaConfigFile fs cwd dir).isSome = true) :
    prisma fs cwd load dir input od =
      match importDatamodelInfoAndClient fs load dir od
          (inpOf input).client (inpOf input).datamodelInfoPath with
      | Except.error e => Except.error e
      | Except.ok (client, datamodelInfo) =>
        Except.ok (some { datamodelInfo := datamodelInfo, client := client }) := by
  unfold prisma
  cases input with
  | some i => cases hp : (findPrismaConfigFile fs cwd dir).isSome <;> simp [hp]
  | none =>
    rcases hin with h | h
    · simp at h
    · simp [h]

/-- Inversion: a present resolved subsystem certifies the import result. -/
theorem prisma_ok_some {fs : String → Bool} {cwd : String}
    {load : String → String → Nat} {dir : String} {input : Option InputPrismaConfig}
    {od : String} {pr : PrismaConfigResolved}
    (h : prisma fs cwd load dir input od = Except.ok (some pr)) :
    importDatamodelInfoAndClient fs load dir od
        (inpOf input).client (inpOf input).datamodelInfoPath =
      Except.ok (pr.client, pr.datamodelInfo) := by
  have hin : input.isSome = true ∨ (findPrismaConfigFile fs cwd dir).isSome = true := by
    have hi := prisma_ok_isSome h
    simp only [Option.isSome_some] at hi
    exact Bool.or_eq_true_iff.mp hi.symm
  rw [prisma_enabled hin] at h
  split at h
  · simp at h
  · rename_i cl dm heq
    simp only [Except.ok.injEq, Option.some.injEq] at h
    subst h
    exact heq

/-- Forward composition of a full resolution from its parts. -/
theorem normalizeConfig_mk {fs : String → Bool} {cwd : String}
    {load : String → String → Nat} {raw : InputConfig} {dir : String}
    {outDir : Option String} {ctx ej : Option String} {res : String}
    {pr : Option PrismaConfigResolved}
    (h1 : contextPath fs dir raw.contextPath = Except.ok ctx)
    (h2 : resolversPath fs dir raw.resolversPath = Except.ok res)
    (h3 : ejectFilePath fs dir raw.ejectFilePath = Except.ok ej)
    (h5 : prisma fs cwd load dir raw.prisma (output dir raw.output outDir).buildPath =
      Except.ok pr) :
    normalizeConfig fs cwd load raw dir outDir =
      Except.ok { contextPath := ctx
                  resolversPath := res
                  ejectFilePath := ej
                  output := output dir raw.output outDir
                  prisma := pr } := by
  unfold normalizeConfig
  simp [h1, h2, h3, h5, Bind.bind, Except.bind]

/-- Re-deriving and re-resolving an optional field that was present. -/
theorem optional_rederive_some {fs : String → Bool} {dir : String}
    {input : Option String} {d msg msg2 p rc : String} (hdir : isAbsPath dir = true)
    (h : optionalPath fs (inputOrDefaultPath dir input d) input msg = Except.ok (some p))
    (hm : minusRoot dir p = some rc) :
    optionalPath fs (inputOrDefaultPath dir (some rc) d) (some rc) msg2 =
      Except.ok (some p) := by
  obtain ⟨hp, hfs⟩ := optionalPath_ok_some h
  obtain ⟨_, hr⟩ := minusRoot_some hm
  have hj : joinPath dir rc = p := joinPath_minusRoot hdir hp hm
  have hpath : inputOrDefaultPath dir (some rc) d = p := by
    rw [inputOrDefaultPath, inputOrDefaultValue_some_ne _ hr, hj]
  rw [hpath]
  have hfsp : fs p = true := by rw [hp]; exact hfs
  rw [optionalPath_exists _ _ hfsp]

/-- Re-deriving and re-resolving an optional field that was absent. -/
theorem optional_rederive_none {fs : String → Bool} {dir : String}
    {input : Option String} {d msg : String} (msg2 : String)
    (h : optionalPath fs (inputOrDefaultPath dir input d) input msg = Except.ok none) :
    optionalPath fs (inputOrDefaultPath dir none d) none msg2 = Except.ok none := by
  obtain ⟨hfs, ht⟩ := optionalPath_ok_none h
  have hpath : inputOrDefaultPath dir none d = inputOrDefaultPath dir input d := by
    unfold inputOrDefaultPath
    rw [inputOrDefaultValue_not_truthy _ ht]
    rfl
  rw [hpath]
  exact optionalPath_absent _ hfs rfl

/-- Re-deriving and re-resolving `contextPath`. -/
theorem contextPath_rederive_some {fs : String → Bool} {dir : String}
    {input : Option String} {p rc : String} (hdir : isAbsPath dir = true)
    (h : contextPath fs dir input = Except.ok (some p)) (hm : minusRoot dir p = some rc) :
    contextPath fs dir (some rc) = Except.ok (some p) := by
  unfold contextPath at h ⊢
  exact optional_rederive_some hdir h hm

/-- Re-deriving an absent `contextPath`. -/
theorem contextPath_rederive_none {fs : String → Bool} {dir : String}
    {input : Option String} (h : contextPath fs dir input = Except.ok none) :
    contextPath fs dir none = Except.ok none := by
  unfold contextPath at h ⊢
  exact optional_rederive_none _ h

/-- Re-deriving and re-resolving `ejectFilePath`. -/
theorem ejectFilePath_rederive_some {fs : String → Bool} {dir : String}
    {input : Option String} {p rc : String} (hdir : isAbsPath dir = true)
    (h : ejectFilePath fs dir input = Except.ok (some p)) (hm : minusRoot dir p = some rc) :
    ejectFilePath fs dir (some rc) = Except.ok (some p) := by
  unfold ejectFilePath at h ⊢
  exact optional_rederive_some hdir h hm

/-- Re-deriving an absent `ejectFilePath`. -/
theorem ejectFilePath_rederive_none {fs : String → Bool} {dir : String}
    {input : Option String} (h : ejectFilePath fs dir input = Except.ok none) :
    ejectFilePath fs dir none = Except.ok none := by
  unfold ejectFilePath at h ⊢
  exact optional_rederive_none _ h

/-- Re-deriving and re-resolving `resolversPath`. -/
theorem resolversPath_rederive {fs : String → Bool} {dir : String}
    {input : Option String} {q rres : String} (hdir : isAbsPath dir = true)
    (h : resolversPath fs dir input = Except.ok q) (hm : minusRoot dir q = some rres) :
    resolversPath fs dir (some rres) = Except.ok q := by
  unfold resolversPath at h ⊢
  obtain ⟨hq, hfs⟩ := requiredPath_ok_fs h
  obtain ⟨_, hr⟩ := minusRoot_some hm
  have hj : joinPath dir rres = q := joinPath_minusRoot hdir hq hm
  have hpath : inputOrDefaultPath dir (some rres) DEFAULTS.resolversPath = q := by
    rw [inputOrDefaultPath, inputOrDefaultValue_some_ne _ hr, hj]
  rw [hpath]
  have hfsq : fs q = true := by rw [hq]; exact hfs
  rw [requiredPath_exists _ hfsq]

/-- Re-deriving and re-resolving the `output` block. -/
theorem output_rederive {dir : String} {outDir : Option String}
    {ct cs cb : String} {rty rsc : String} {rb : Option String}
    (hdir : isAbsPath dir = true)
    (hvt : ∃ v, ct = joinPath dir v) (hvs : ∃ v, cs = joinPath dir v)
    (hb : cb = inputOrDefaultValue outDir (joinPath dir DEFAULTS.buildPath))
    (hmt : minusRoot dir ct = some rty) (hms : minusRoot dir cs = some rsc) :
    output dir (some { typegenPath := some rty, schemaPath := some rsc, buildPath := rb })
      outDir = ⟨ct, cs, cb⟩ := by
  obtain ⟨vt, hvt⟩ := hvt
  obtain ⟨vs, hvs⟩ := hvs
  obtain ⟨_, hrt⟩ := minusRoot_some hmt
  obtain ⟨_, hrs⟩ := minusRoot_some hms
  have hjt := joinPath_minusRoot hdir hvt hmt
  have hjs := joinPath_minusRoot hdir hvs hms
  have h1' : inputOrDefaultPath dir (some rty) DEFAULTS.typegenPath = ct := by
    rw [inputOrDefaultPath, inputOrDefaultValue_some_ne _ hrt, hjt]
  have h2' : inputOrDefaultPath dir (some rsc) DEFAULTS.schemaPath = cs := by
    rw [inputOrDefaultPath, inputOrDefaultValue_some_ne _ hrs, hjs]
  simp [output, h1', h2', hb]

/-- Re-deriving an enabled subsystem: the loaded client goes back inline
and the descriptor reloads from the default path. -/
theorem prisma_rederive {fs : String → Bool} {cwd : String}
    {load : String → String → Nat} {dir : String} {input : Option InputPrismaConfig}
    {od od2 : String} {pr : PrismaConfigResolved}
    (hnp : prismaNoCustomPath input)
    (h : prisma fs cwd load dir input od = Except.ok (some pr)) :
    prisma fs cwd load dir
        (some (InputPrismaConfig.overrides
          { datamodelInfoPath := none, client := some pr.client })) od2 =
      Except.ok (some pr) := by
  have himp := prisma_ok_some h
  have hdmi : (inpOf input).datamodelInfoPath = none := by
    cases input with
    | none => rfl
    | some i =>
      cases i with
      | enable => rfl
      | overrides o => exact hnp
  rw [hdmi] at himp
  obtain ⟨hfs, hdm⟩ := importDMIC_ok himp
  rw [@prisma_enabled fs cwd load dir
    (some (InputPrismaConfig.overrides { datamodelInfoPath := none, client := some pr.client }))
    od2 (Or.inl rfl)]
  have hfs' : fs (joinPath dir
      (inputOrDefaultValue none DEFAULT_META_SCHEMA_PATH)) = true := hfs
  rw [show (inpOf (some (InputPrismaConfig.overrides
      { datamodelInfoPath := none, client := some pr.client }))).client =
      some pr.client from rfl]
  rw [show (inpOf (some (InputPrismaConfig.overrides
      { datamodelInfoPath := none, client := some pr.client }))).datamodelInfoPath =
      none from rfl]
  rw [importDMIC_inline pr.client none hfs']
  show Except.ok (some (PrismaConfigResolved.mk
      (load (joinPath dir (inputOrDefaultValue none DEFAULT_META_SCHEMA_PATH)) ("default"))
      pr.client)) = Except.ok (some pr)
  rw [show inputOrDefaultValue (none : Option String) DEFAULT_META_SCHEMA_PATH =
    DEFAULT_META_SCHEMA_PATH from rfl, ← hdm]

/-- Re-deriving a disabled subsystem. -/
theorem prisma_rederive_none {fs : String → Bool} {cwd : String}
    {load : String → String → Nat} {dir : String} {input : Option InputPrismaConfig}
    {od od2 : String} (h : prisma fs cwd load dir input od = Except.ok none) :
    prisma fs cwd load dir none od2 = Except.ok none := by
  obtain ⟨_, hp⟩ := prisma_ok_none h
  exact prisma_disabled hp

/-- Inversion of the re-derivation: what each field of the derived raw
config must be. -/
theorem deriveRaw_some {dir : String} {c : Config} {raw2 : InputConfig}
    (hd : deriveRaw dir c = some raw2) :
    (∃ rres, minusRoot dir c.resolversPath = some rres ∧
      raw2.resolversPath = some rres) ∧
    ((c.contextPath = none ∧ raw2.contextPath = none) ∨
      (∃ p rc, c.contextPath = some p ∧ minusRoot dir p = some rc ∧
        raw2.contextPath = some rc)) ∧
    ((c.ejectFilePath = none ∧ raw2.ejectFilePath = none) ∨
      (∃ p rc, c.ejectFilePath = some p ∧ minusRoot dir p = some rc ∧
        raw2.ejectFilePath = some rc)) ∧
    (∃ rty rsc rb, minusRoot dir c.output.typegenPath = some rty ∧
      minusRoot dir c.output.schemaPath = some rsc ∧
      raw2.output = some { typegenPath := some rty
                           schemaPath := some rsc
                           buildPath := rb }) ∧
    ((c.prisma = none ∧ raw2.prisma = none) ∨
      (∃ pr, c.prisma = some pr ∧ raw2.prisma = some (InputPrismaConfig.overrides
        { datamodelInfoPath := none, client := some pr.client }))) := by
  unfold deriveRaw at hd
  split at hd
  · rename_i rres rctx rej rty rsc h1 h2 h3 h4 h5
    simp only [Option.some.injEq] at hd
    subst hd
    refine ⟨⟨rres, h1, rfl⟩, ?_, ?_, ⟨rty, rsc, _, h4, h5, rfl⟩, ?_⟩
    · cases hc : c.contextPath with
      | none =>
        rw [hc] at h2
        have h2' : (some (none : Option String) : Option (Option String)) = some rctx := h2
        simp only [Option.some.injEq] at h2'
        exact Or.inl ⟨rfl, h2'.symm⟩
      | some p =>
        rw [hc] at h2
        have h2' : (minusRoot dir p).map some = some rctx := h2
        cases hmc : minusRoot dir p with
        | none =>
          rw [hmc] at h2'
          have h2'' : (none : Option (Option String)) = some rctx := h2'
          simp at h2''
        | some rc =>
          rw [hmc] at h2'
          have h2'' : (some (some rc) : Option (Option String)) = some rctx := h2'
          simp only [Option.some.injEq] at h2''
          exact Or.inr ⟨p, rc, rfl, hmc, h2''.symm⟩
    · cases hc : c.ejectFilePath with
      | none =>
        rw [hc] at h3
        have h3' : (some (none : Option String) : Option (Option String)) = some rej := h3
        simp only [Option.some.injEq] at h3'
        exact Or.inl ⟨rfl, h3'.symm⟩
      | some p =>
        rw [hc] at h3
        have h3' : (minusRoot dir p).map some = some rej := h3
        cases hmc : minusRoot dir p with
        | none =>
          rw [hmc] at h3'
          have h3'' : (none : Option (Option String)) = some rej := h3'
          simp at h3''
        | some rc =>
          rw [hmc] at h3'
          have h3'' : (some (some rc) : Option (Option String)) = some rej := h3'
          simp only [Option.some.injEq] at h3''
          exact Or.inr ⟨p, rc, rfl, hmc, h3''.symm⟩
    · cases hc : c.prisma with
      | none => exact Or.inl ⟨rfl, rfl⟩
      | some pr => exact Or.inr ⟨pr, rfl, rfl⟩
  all_goals simp at hd

/-- C8 counterexample: a config resolved with a custom descriptor path
(`datamodelInfoPath: './custom.ts'`, loading value 1) re-derives to a raw
config whose re-resolution reloads the descriptor from the default
location (value 2): re-resolving the derived raw form does not give back
the same resolved config. -/
theorem c8_counterexample :
    normalizeConfig fs8 ("/cwd") load8 raw8 ("/proj") none = Except.ok c8a ∧
    deriveRaw ("/proj") c8a = some raw8b ∧
    normalizeConfig fs8 ("/cwd") load8 raw8b ("/proj") none = Except.ok c8b ∧
    c8a ≠ c8b := by decide

/-- C8 amended: resolution is idempotent provided every resolved path lies
directly under the project root (so subtraction is defined, with a
non-empty remainder) and the original config did not override the
descriptor path; re-deriving the raw config from a successful resolution
and resolving it again with the same root, override and filesystem yields
the same resolved config. -/
theorem c8_amended (fs : String → Bool) (cwd : String) (load : String → String → Nat)
    (raw raw2 : InputConfig) (dir : String) (outDir : Option String) (c : Config)
    (hdir : isAbsPath dir = true) (hnp : prismaNoCustomPath raw.prisma)
    (h : normalizeConfig fs cwd load raw dir outDir = Except.ok c)
    (hd : deriveRaw dir c = some raw2) :
    normalizeConfig fs cwd load raw2 dir outDir = Except.ok c := by
  obtain ⟨h1, h2, h3, h4, h5⟩ := normalizeConfig_ok_parts h
  obtain ⟨⟨rres, hres, hr2res⟩, hctxd, hejd, ⟨rty, rsc, rb, hmt, hms, hr2out⟩, hprd⟩ :=
    deriveRaw_some hd
  have hvt : ∃ v, c.output.typegenPath = joinPath dir v := by
    rw [← h4]
    cases raw.output <;> exact ⟨_, rfl⟩
  have hvs : ∃ v, c.output.schemaPath = joinPath dir v := by
    rw [← h4]
    cases raw.output <;> exact ⟨_, rfl⟩
  have hvb : c.output.buildPath = inputOrDefaultValue outDir (joinPath dir DEFAULTS.buildPath) := by
    rw [← h4]
    cases raw.output <;> rfl
  have hout2 : output dir raw2.output outDir = c.output := by
    rw [hr2out]
    exact (output_rederive hdir hvt hvs hvb hmt hms).trans rfl
  have hctx2 : contextPath fs dir raw2.contextPath = Except.ok c.contextPath := by
    rcases hctxd with ⟨hc, hr⟩ | ⟨p, rc, hc, hmc, hr⟩
    · rw [hr, hc]
      exact contextPath_rederive_none (by rw [hc] at h1; exact h1)
    · rw [hr, hc]
      exact contextPath_rederive_some hdir (by rw [hc] at h1; exact h1) hmc
  have hej2 : ejectFilePath fs dir raw2.ejectFilePath = Except.ok c.ejectFilePath := by
    rcases hejd with ⟨hc, hr⟩ | ⟨p, rc, hc, hmc, hr⟩
    · rw [hr, hc]
      exact ejectFilePath_rederive_none (by rw [hc] at h3; exact h3)
    · rw [hr, hc]
      exact ejectFilePath_rederive_some hdir (by rw [hc] at h3; exact h3) hmc
  have hres2 : resolversPath fs dir raw2.resolversPath = Except.ok c.resolversPath := by
    rw [hr2res]
    exact resolversPath_rederive hdir h2 hres
  have h5' : prisma fs cwd load dir raw.prisma c.output.buildPath = Except.ok c.prisma := by
    rw [← h4]
    exact h5
  have hpr2 : prisma fs cwd load dir raw2.prisma
      (output dir raw2.output outDir).buildPath = Except.ok c.prisma := by
    rw [hout2]
    rcases hprd with ⟨hc, hr⟩ | ⟨pr, hc, hr⟩
    · rw [hr, hc]
      exact prisma_rederive_none (by rw [hc] at h5'; exact h5')
    · rw [hr, hc]
      exact prisma_rederive hnp (by rw [hc] at h5'; exact h5')
  rw [normalizeConfig_mk hctx2 hres2 hej2 hpr2, hout2]

/-- Witness for C8 amended: the minimal scenario re-derives and re-resolves
to the same config. -/
theorem c8_amended_witness :
    normalizeConfig fsMin ("/cwd") (fun _ _ => 0) rawMinD ("/proj") none =
      Except.ok cMin :=
  c8_amended fsMin ("/cwd") (fun _ _ => 0) {} rawMinD ("/proj") none cMin
    (by decide) trivial (by decide) (by decide)
